import Mathlib

/-!
Verification of the timeline/date-arithmetic core of the schedule editor.

Dates are modelled as integers counting days since the Unix epoch
(1970-01-01, UTC midnight).  Every `Date` value the program manipulates is a
UTC-midnight instant produced by `Date.UTC`/`setUTCDate`, so a calendar date
is faithfully represented by that day count.  The weekly non-working-day set
(`holidays : Set<number>` in the source, queried via `.has(getUTCDay())`) is
modelled as a boolean membership function on weekday numbers.

The source's unbounded `while` walks over masked days advance at least one
working day every seven calendar days whenever the mask misses at least one
weekday (`maskNotFull` below); the recursions here carry an explicit step
budget that is provably sufficient under that precondition, which is the
documented caller obligation in the source.
-/

namespace Gantt

/-- Weekday of an epoch day, as returned by `Date.prototype.getUTCDay`
(0 = Sunday … 6 = Saturday); epoch day 0 (1970-01-01) was a Thursday (4). -/
def weekday (d : Int) : Int := (d + 4) % 7

/-- The non-working-day set `holidays`, as its membership test
(`holidays.has(w)` in the source). -/
abbrev Mask := Int → Bool

/-- At least one of the seven weekdays is a working day.  The source documents
an all-masked week as a forbidden input (the walks would not terminate). -/
def maskNotFull (m : Mask) : Prop := ∃ w : Int, 0 ≤ w ∧ w < 7 ∧ m w = false

/-- One day is working when its weekday is not in the mask
(`!nonWorkingDays.has(current.getUTCDay())`). -/
def isWorking (m : Mask) (d : Int) : Bool := ! m (weekday d)

/-- `addDaysUTC` from `dateUtils`: calendar-day shift. -/
def addDaysUTC (d : Int) (n : Int) : Int := d + n

/-- Loop body of `calculateWorkingDays`: counts working days among the `n`
consecutive days starting at `d`. -/
def countAux (m : Mask) : Int → Nat → Nat
  | _, 0 => 0
  | d, n + 1 => (if m (weekday d) then 0 else 1) + countAux m (d + 1) n

/-- `calculateWorkingDays(startDate, endDate, nonWorkingDays)`: number of
days in `[s, e]` whose weekday is not masked; `0` when `e < s`. -/
def calculateWorkingDays (s e : Int) (m : Mask) : Nat :=
  if e < s then 0 else countAux m s ((e - s).toNat + 1)

/-- `getDatesInRange(startDate, endDate)`: every day from `s` to `e`
inclusive, ascending; empty when `e < s`. -/
def getDatesInRange (s e : Int) : List Int :=
  if e < s then [] else (List.range ((e - s).toNat + 1)).map (fun i => s + i)

/-- The `days === 0` branch of `addWorkingDays`: walk backward while the
current day is masked.  The walk finds a working day within 7 steps whenever
the mask misses a weekday, so budget 7 computes the loop's exact result. -/
def snapBackAux (m : Mask) : Nat → Int → Int
  | 0, d => d
  | f + 1, d => if m (weekday d) then snapBackAux m f (d - 1) else d

/-- The start-snapping loop of `addWorkingDays`: walk forward while the
current day is masked (budget 7 suffices, as for `snapBackAux`). -/
def snapFwdAux (m : Mask) : Nat → Int → Int
  | 0, d => d
  | f + 1, d => if m (weekday d) then snapFwdAux m f (d + 1) else d

/-- The counting loop of `addWorkingDays`
(`while (added < days-1) { result++ ; if working added++ }`), with `r` the
number of working days still to consume.  Every span of 7 consecutive days
contains a working day when the mask misses a weekday, so a budget of `7*r`
computes the loop's exact result. -/
def addLoopAux (m : Mask) : Nat → Nat → Int → Int
  | 0, _, d => d
  | _ + 1, 0, d => d
  | f + 1, r + 1, d =>
      if m (weekday (d + 1)) then addLoopAux m f (r + 1) (d + 1)
      else addLoopAux m f r (d + 1)

/-- `addWorkingDays(startDate, days, nonWorkingDays)` from `dateUtils`. -/
def addWorkingDays (s : Int) (days : Int) (m : Mask) : Int :=
  if days = 0 then snapBackAux m 7 s
  else if days < 1 then s
  else addLoopAux m (7 * (days - 1).toNat) ((days - 1).toNat) (snapFwdAux m 7 s)

/-- The signed walk of `addOrSubtractWorkingDays`
(`while remaining > 0 { result += direction ; if working remaining-- }`);
budget `7*r` suffices as for `addLoopAux`. -/
def dirLoopAux (m : Mask) (dir : Int) : Nat → Nat → Int → Int
  | 0, _, d => d
  | _ + 1, 0, d => d
  | f + 1, r + 1, d =>
      if m (weekday (d + dir)) then dirLoopAux m dir f (r + 1) (d + dir)
      else dirLoopAux m dir f r (d + dir)

/-- `addOrSubtractWorkingDays(startDate, days, nonWorkingDays)`:
signed working-day offset (no-op at 0). -/
def addOrSubtractWorkingDays (s : Int) (days : Int) (m : Mask) : Int :=
  if days = 0 then s
  else dirLoopAux m (if 0 < days then 1 else -1) (7 * days.natAbs) days.natAbs s

/-! ### Basic facts about `calculateWorkingDays` -/

theorem calculateWorkingDays_of_lt {s e : Int} (m : Mask) (h : e < s) :
    calculateWorkingDays s e m = 0 := by
  simp [calculateWorkingDays, h]

theorem calculateWorkingDays_succ_left {s e : Int} (m : Mask) (h : s ≤ e) :
    calculateWorkingDays s e m
      = (if m (weekday s) then 0 else 1) + calculateWorkingDays (s + 1) e m := by
  rcases eq_or_lt_of_le h with rfl | hlt
  · have h1 : (s - s).toNat + 1 = 1 := by omega
    have h2 : s < s + 1 := by omega
    simp [calculateWorkingDays, h1, countAux, h2]
  · have h1 : ¬ (e < s) := by omega
    have h2 : ¬ (e < s + 1) := by omega
    have h3 : (e - s).toNat + 1 = ((e - (s + 1)).toNat + 1) + 1 := by omega
    rw [calculateWorkingDays, calculateWorkingDays, if_neg h1, if_neg h2, h3]
    rfl

theorem calculateWorkingDays_split {s t e : Int} (m : Mask)
    (h1 : s ≤ t + 1) (h2 : t ≤ e) :
    calculateWorkingDays s e m
      = calculateWorkingDays s t m + calculateWorkingDays (t + 1) e m := by
  have key : ∀ n : Nat, ∀ s : Int, (t + 1 - s).toNat = n → s ≤ t + 1 →
      calculateWorkingDays s e m
        = calculateWorkingDays s t m + calculateWorkingDays (t + 1) e m := by
    intro n
    induction n with
    | zero =>
      intro s hn hs
      have hs' : s = t + 1 := by omega
      subst hs'
      rw [calculateWorkingDays_of_lt m (show t < t + 1 by omega)]
      omega
    | succ k ih =>
      intro s hn hs
      have hst : s ≤ t := by omega
      have hse : s ≤ e := le_trans hst h2
      rw [calculateWorkingDays_succ_left m hse, calculateWorkingDays_succ_left m hst,
        ih (s + 1) (by omega) (by omega)]
      omega
  exact key (t + 1 - s).toNat s rfl h1

theorem calculateWorkingDays_mono_right {s e1 e2 : Int} (m : Mask) (h : e1 ≤ e2) :
    calculateWorkingDays s e1 m ≤ calculateWorkingDays s e2 m := by
  rcases lt_or_le e1 s with hlt | hle
  · simp [calculateWorkingDays_of_lt m hlt]
  · rcases eq_or_lt_of_le h with rfl | hlt
    · exact le_refl _
    · rw [calculateWorkingDays_split m (s := s) (t := e1) (e := e2) (by omega) (by omega)]
      omega

theorem calculateWorkingDays_all_masked {s e : Int} (m : Mask)
    (h : ∀ x, s ≤ x → x ≤ e → m (weekday x) = true) :
    calculateWorkingDays s e m = 0 := by
  have key : ∀ n : Nat, ∀ s : Int, (e + 1 - s).toNat = n →
      (∀ x, s ≤ x → x ≤ e → m (weekday x) = true) →
      calculateWorkingDays s e m = 0 := by
    intro n
    induction n with
    | zero =>
      intro s hn _
      exact calculateWorkingDays_of_lt m (by omega)
    | succ k ih =>
      intro s hn hmask
      have hse : s ≤ e := by omega
      rw [calculateWorkingDays_succ_left m hse, hmask s le_rfl hse,
        ih (s + 1) (by omega) (fun x hx1 hx2 => hmask x (by omega) hx2)]
      simp
  exact key (e + 1 - s).toNat s rfl h

theorem calculateWorkingDays_all_working {s e : Int} (m : Mask) (hse : s ≤ e)
    (h : ∀ x, s ≤ x → x ≤ e → m (weekday x) = false) :
    calculateWorkingDays s e m = (e - s).toNat + 1 := by
  have key : ∀ n : Nat, ∀ s : Int, (e + 1 - s).toNat = n → s ≤ e →
      (∀ x, s ≤ x → x ≤ e → m (weekday x) = false) →
      calculateWorkingDays s e m = (e - s).toNat + 1 := by
    intro n
    induction n with
    | zero => intro s hn hse _; omega
    | succ k ih =>
      intro s hn hse hw
      rw [calculateWorkingDays_succ_left m hse, hw s le_rfl hse]
      rcases eq_or_lt_of_le hse with heq | hlt
      · rw [calculateWorkingDays_of_lt m (show e < s + 1 by omega)]
        simp
        omega
      · rw [ih (s + 1) (by omega) (by omega) (fun x hx1 hx2 => hw x (by omega) hx2)]
        simp
        omega
  exact key (e + 1 - s).toNat s rfl hse h

/-- Counting one single day. -/
theorem calculateWorkingDays_self (m : Mask) (d : Int) :
    calculateWorkingDays d d m = if m (weekday d) then 0 else 1 := by
  rw [calculateWorkingDays_succ_left m le_rfl,
    calculateWorkingDays_of_lt m (show d < d + 1 by omega)]
  omega

/-- Appending a working day on the right strictly increases the count. -/
theorem calculateWorkingDays_lt_of_working_right {s e1 e2 : Int} (m : Mask)
    (h1 : s ≤ e2) (h2 : e1 < e2) (hw : m (weekday e2) = false) :
    calculateWorkingDays s e1 m < calculateWorkingDays s e2 m := by
  have hsplit := calculateWorkingDays_split m (s := s) (t := e2 - 1) (e := e2)
    (by omega) (by omega)
  have he : e2 - 1 + 1 = e2 := by omega
  rw [he] at hsplit
  have hlast : calculateWorkingDays e2 e2 m = 1 := by
    have := calculateWorkingDays_self m e2
    rw [hw] at this
    simpa using this
  have hmono := calculateWorkingDays_mono_right m (s := s) (show e1 ≤ e2 - 1 by omega)
  omega

/-- Prepending a working left endpoint strictly increases the count. -/
theorem calculateWorkingDays_lt_of_working_left {s1 s2 e : Int} (m : Mask)
    (h1 : s1 < s2) (h2 : s2 ≤ e + 1) (hw : m (weekday s1) = false) :
    calculateWorkingDays s2 e m < calculateWorkingDays s1 e m := by
  have hsplit := calculateWorkingDays_split m (s := s1) (t := s2 - 1) (e := e)
    (by omega) (by omega)
  have hone : 1 ≤ calculateWorkingDays s1 (s2 - 1) m := by
    have := calculateWorkingDays_mono_right m (s := s1)
      (show s1 ≤ s2 - 1 by omega)
    have hself : calculateWorkingDays s1 s1 m = 1 := by
      rw [calculateWorkingDays_self m s1, hw]
      simp
    omega
  have : s2 - 1 + 1 = s2 := by omega
  rw [this] at hsplit
  omega

/-! ### Reaching a working day within seven steps -/

theorem exists_working_fwd {m : Mask} (hm : maskNotFull m) (d : Int) :
    ∃ k : Nat, k ≤ 6 ∧ m (weekday (d + k)) = false := by
  obtain ⟨w, hw0, hw7, hwm⟩ := hm
  refine ⟨((w - weekday d) % 7).toNat, by unfold weekday; omega, ?_⟩
  have : weekday (d + ((w - weekday d) % 7).toNat) = w := by
    unfold weekday
    omega
  rw [this]
  exact hwm

theorem exists_working_bwd {m : Mask} (hm : maskNotFull m) (d : Int) :
    ∃ k : Nat, k ≤ 6 ∧ m (weekday (d - k)) = false := by
  obtain ⟨w, hw0, hw7, hwm⟩ := hm
  refine ⟨((weekday d - w) % 7).toNat, by unfold weekday; omega, ?_⟩
  have : weekday (d - ((weekday d - w) % 7).toNat) = w := by
    unfold weekday
    omega
  rw [this]
  exact hwm

theorem snapFwdAux_of_working {m : Mask} {d : Int} (h : m (weekday d) = false)
    (f : Nat) : snapFwdAux m f d = d := by
  cases f <;> simp [snapFwdAux, h]

theorem snapFwdAux_eq_add {m : Mask} : ∀ (k : Nat) (d : Int) (f : Nat), k ≤ f →
    (∀ j : Nat, j < k → m (weekday (d + j)) = true) →
    m (weekday (d + k)) = false →
    snapFwdAux m f d = d + k := by
  intro k
  induction k with
  | zero =>
    intro d f _ _ hk
    simp only [Nat.cast_zero, add_zero] at hk
    simpa using snapFwdAux_of_working hk f
  | succ n ih =>
    intro d f hf hmask hk
    obtain ⟨f', rfl⟩ : ∃ f', f = f' + 1 := ⟨f - 1, by omega⟩
    have hd : m (weekday d) = true := by simpa using hmask 0 (by omega)
    rw [show snapFwdAux m (f' + 1) d = if m (weekday d) then snapFwdAux m f' (d + 1) else d
        from rfl, if_pos hd,
      ih (d + 1) f' (by omega) (fun j hj => by
        have := hmask (j + 1) (by omega)
        push_cast at this ⊢
        convert this using 3
        ring) (by push_cast at hk; convert hk using 3; ring)]
    push_cast
    ring

theorem snapBackAux_of_working {m : Mask} {d : Int} (h : m (weekday d) = false)
    (f : Nat) : snapBackAux m f d = d := by
  cases f <;> simp [snapBackAux, h]

theorem snapBackAux_eq_sub {m : Mask} : ∀ (k : Nat) (d : Int) (f : Nat), k ≤ f →
    (∀ j : Nat, j < k → m (weekday (d - j)) = true) →
    m (weekday (d - k)) = false →
    snapBackAux m f d = d - k := by
  intro k
  induction k with
  | zero =>
    intro d f _ _ hk
    simp only [Nat.cast_zero, sub_zero] at hk
    simpa using snapBackAux_of_working hk f
  | succ n ih =>
    intro d f hf hmask hk
    obtain ⟨f', rfl⟩ : ∃ f', f = f' + 1 := ⟨f - 1, by omega⟩
    have hd : m (weekday d) = true := by simpa using hmask 0 (by omega)
    rw [show snapBackAux m (f' + 1) d = if m (weekday d) then snapBackAux m f' (d - 1) else d
        from rfl, if_pos hd,
      ih (d - 1) f' (by omega) (fun j hj => by
        have := hmask (j + 1) (by omega)
        push_cast at this ⊢
        convert this using 3
        ring) (by push_cast at hk; convert hk using 3; ring)]
    push_cast
    ring

/-- Characterization of the forward snap with budget 7: it lands on the first
working day at or after `d`, when the mask misses at least one weekday. -/
theorem snapFwd_charac {m : Mask} (hm : maskNotFull m) (d : Int) :
    d ≤ snapFwdAux m 7 d ∧ m (weekday (snapFwdAux m 7 d)) = false ∧
      ∀ x : Int, d ≤ x → x < snapFwdAux m 7 d → m (weekday x) = true := by
  have hex : ∃ k : Nat, m (weekday (d + k)) = false := by
    obtain ⟨k, _, hk⟩ := exists_working_fwd hm d
    exact ⟨k, hk⟩
  classical
  set k0 := Nat.find hex with hk0
  have hk0w : m (weekday (d + k0)) = false := Nat.find_spec hex
  have hk0min : ∀ j : Nat, j < k0 → m (weekday (d + j)) = true := by
    intro j hj
    have := Nat.find_min hex hj
    simpa using this
  have hk06 : k0 ≤ 6 := by
    obtain ⟨k, hk6, hk⟩ := exists_working_fwd hm d
    exact le_trans (Nat.find_min' hex hk) hk6
  have heq : snapFwdAux m 7 d = d + k0 :=
    snapFwdAux_eq_add k0 d 7 (by omega) hk0min hk0w
  refine ⟨by omega, by rw [heq]; exact hk0w, ?_⟩
  intro x hx1 hx2
  rw [heq] at hx2
  have : x = d + ((x - d).toNat : Int) := by omega
  rw [this]
  exact hk0min (x - d).toNat (by omega)

/-- Characterization of the backward snap with budget 7: it lands on the first
working day at or before `d`, when the mask misses at least one weekday. -/
theorem snapBack_charac {m : Mask} (hm : maskNotFull m) (d : Int) :
    snapBackAux m 7 d ≤ d ∧ m (weekday (snapBackAux m 7 d)) = false ∧
      ∀ x : Int, snapBackAux m 7 d < x → x ≤ d → m (weekday x) = true := by
  have hex : ∃ k : Nat, m (weekday (d - k)) = false := by
    obtain ⟨k, _, hk⟩ := exists_working_bwd hm d
    exact ⟨k, hk⟩
  classical
  set k0 := Nat.find hex with hk0
  have hk0w : m (weekday (d - k0)) = false := Nat.find_spec hex
  have hk0min : ∀ j : Nat, j < k0 → m (weekday (d - j)) = true := by
    intro j hj
    have := Nat.find_min hex hj
    simpa using this
  have hk06 : k0 ≤ 6 := by
    obtain ⟨k, hk6, hk⟩ := exists_working_bwd hm d
    exact le_trans (Nat.find_min' hex hk) hk6
  have heq : snapBackAux m 7 d = d - k0 :=
    snapBackAux_eq_sub k0 d 7 (by omega) hk0min hk0w
  refine ⟨by omega, by rw [heq]; exact hk0w, ?_⟩
  intro x hx1 hx2
  rw [heq] at hx1
  have : x = d - ((d - x).toNat : Int) := by omega
  rw [this]
  exact hk0min (d - x).toNat (by omega)

/-! ### The counting loops of `addWorkingDays` / `addOrSubtractWorkingDays` -/

theorem addLoopAux_zero (m : Mask) (f : Nat) (d : Int) :
    addLoopAux m f 0 d = d := by
  cases f <;> rfl

theorem addLoopAux_jump {m : Mask} : ∀ (k : Nat) (d : Int) (f r : Nat),
    1 ≤ k → k ≤ f →
    (∀ j : Nat, 1 ≤ j → j < k → m (weekday (d + j)) = true) →
    m (weekday (d + k)) = false →
    addLoopAux m f (r + 1) d = addLoopAux m (f - k) r (d + k) := by
  intro k
  induction k with
  | zero => omega
  | succ n ih =>
    intro d f r _ hkf hmask hk
    obtain ⟨f', rfl⟩ : ∃ f', f = f' + 1 := ⟨f - 1, by omega⟩
    rcases Nat.eq_zero_or_pos n with rfl | hn
    · have hw : m (weekday (d + 1)) = false := by simpa using hk
      rw [show addLoopAux m (f' + 1) (r + 1) d
          = if m (weekday (d + 1)) then addLoopAux m f' (r + 1) (d + 1)
            else addLoopAux m f' r (d + 1) from rfl, hw]
      simp
    · have hw : m (weekday (d + 1)) = true := by
        simpa using hmask 1 le_rfl (by omega)
      rw [show addLoopAux m (f' + 1) (r + 1) d
          = if m (weekday (d + 1)) then addLoopAux m f' (r + 1) (d + 1)
            else addLoopAux m f' r (d + 1) from rfl, hw, if_pos rfl,
        ih (d + 1) f' r hn (by omega)
          (fun j hj1 hj2 => by
            have := hmask (j + 1) (by omega) (by omega)
            push_cast at this ⊢
            convert this using 3
            ring)
          (by push_cast at hk ⊢; convert hk using 3; ring)]
      congr 1
      · omega
      · push_cast; ring

theorem addLoopAux_charac {m : Mask} (hm : maskNotFull m) :
    ∀ (r : Nat) (d : Int) (f : Nat), 7 * r ≤ f →
    d ≤ addLoopAux m f r d ∧
      calculateWorkingDays (d + 1) (addLoopAux m f r d) m = r ∧
      (r = 0 → addLoopAux m f r d = d) ∧
      (1 ≤ r → m (weekday (addLoopAux m f r d)) = false) := by
  intro r
  induction r with
  | zero =>
    intro d f _
    rw [addLoopAux_zero]
    refine ⟨le_rfl, calculateWorkingDays_of_lt m (by omega), fun _ => rfl, by omega⟩
  | succ r ih =>
    intro d f hf
    have hex : ∃ j : Nat, m (weekday (d + 1 + j)) = false := by
      obtain ⟨j, _, hj⟩ := exists_working_fwd hm (d + 1)
      exact ⟨j, hj⟩
    classical
    have hj0w : m (weekday (d + 1 + (Nat.find hex : Nat))) = false := Nat.find_spec hex
    have hj0min : ∀ j : Nat, j < Nat.find hex → m (weekday (d + 1 + j)) = true := by
      intro j hj
      have := Nat.find_min hex hj
      simpa using this
    have hj06 : Nat.find hex ≤ 6 := by
      obtain ⟨j, hj6, hj⟩ := exists_working_fwd hm (d + 1)
      exact le_trans (Nat.find_min' hex hj) hj6
    set k : Nat := Nat.find hex + 1 with hkdef
    have hkw : m (weekday (d + k)) = false := by
      push_cast
      push_cast at hj0w
      convert hj0w using 3
      ring
    have hkmin : ∀ j : Nat, 1 ≤ j → j < k → m (weekday (d + j)) = true := by
      intro j hj1 hj2
      have := hj0min (j - 1) (by omega)
      push_cast at this ⊢
      have hjj : ((j : Int)) = 1 + ((j : Int) - 1) := by ring
      rw [show (d + (j : Int)) = d + 1 + ((j : Int) - 1) by ring]
      have hcast : ((j - 1 : Nat) : Int) = (j : Int) - 1 := by omega
      rw [hcast] at this
      exact this
    have hjump := addLoopAux_jump k d f r (by omega) (by omega) hkmin hkw
    obtain ⟨ih1, ih2, ih3, ih4⟩ := ih (d + k) (f - k) (by omega)
    rw [hjump]
    refine ⟨by omega, ?_, by omega, ?_⟩
    · have hsplit := calculateWorkingDays_split m
        (s := d + 1) (t := d + k) (e := addLoopAux m (f - k) r (d + k))
        (by omega) (by omega)
      have hone : calculateWorkingDays (d + 1) (d + k) m = 1 := by
        have hsplit2 := calculateWorkingDays_split m
          (s := d + 1) (t := d + k - 1) (e := d + k) (by omega) (by omega)
        have hz : calculateWorkingDays (d + 1) (d + k - 1) m = 0 := by
          apply calculateWorkingDays_all_masked
          intro x hx1 hx2
          have := hkmin (x - d).toNat (by omega) (by omega)
          have hxx : x = d + ((x - d).toNat : Int) := by omega
          rw [hxx]
          exact this
        have hself : calculateWorkingDays (d + k - 1 + 1) (d + k) m = 1 := by
          rw [show d + (k : Int) - 1 + 1 = d + k by ring, calculateWorkingDays_self m, hkw]
          simp
        omega
      omega
    · intro _
      rcases Nat.eq_zero_or_pos r with rfl | hr
      · rw [ih3 rfl]
        exact hkw
      · exact ih4 hr

theorem dirLoopAux_zero (m : Mask) (dir : Int) (f : Nat) (d : Int) :
    dirLoopAux m dir f 0 d = d := by
  cases f <;> rfl

theorem dirLoopAux_bwd_jump {m : Mask} : ∀ (k : Nat) (d : Int) (f r : Nat),
    1 ≤ k → k ≤ f →
    (∀ j : Nat, 1 ≤ j → j < k → m (weekday (d - j)) = true) →
    m (weekday (d - k)) = false →
    dirLoopAux m (-1) f (r + 1) d = dirLoopAux m (-1) (f - k) r (d - k) := by
  intro k
  induction k with
  | zero => omega
  | succ n ih =>
    intro d f r _ hkf hmask hk
    obtain ⟨f', rfl⟩ : ∃ f', f = f' + 1 := ⟨f - 1, by omega⟩
    rcases Nat.eq_zero_or_pos n with rfl | hn
    · have hw : m (weekday (d + -1)) = false := by
        push_cast at hk
        convert hk using 3
      rw [show dirLoopAux m (-1) (f' + 1) (r + 1) d
          = if m (weekday (d + -1)) then dirLoopAux m (-1) f' (r + 1) (d + -1)
            else dirLoopAux m (-1) f' r (d + -1) from rfl, hw]
      simp
      congr 1
    · have hw : m (weekday (d + -1)) = true := by
        have := hmask 1 le_rfl (by omega)
        push_cast at this
        convert this using 3
      rw [show dirLoopAux m (-1) (f' + 1) (r + 1) d
          = if m (weekday (d + -1)) then dirLoopAux m (-1) f' (r + 1) (d + -1)
            else dirLoopAux m (-1) f' r (d + -1) from rfl, hw, if_pos rfl,
        ih (d + -1) f' r hn (by omega)
          (fun j hj1 hj2 => by
            have := hmask (j + 1) (by omega) (by omega)
            push_cast at this ⊢
            convert this using 3
            ring)
          (by push_cast at hk ⊢; convert hk using 3; ring)]
      congr 1
      · omega
      · push_cast; ring

theorem dirLoopAux_bwd_charac {m : Mask} (hm : maskNotFull m) :
    ∀ (r : Nat) (d : Int) (f : Nat), 7 * r ≤ f →
    dirLoopAux m (-1) f r d ≤ d ∧
      calculateWorkingDays (dirLoopAux m (-1) f r d) (d - 1) m = r ∧
      (r = 0 → dirLoopAux m (-1) f r d = d) ∧
      (1 ≤ r → m (weekday (dirLoopAux m (-1) f r d)) = false) := by
  intro r
  induction r with
  | zero =>
    intro d f _
    rw [dirLoopAux_zero]
    refine ⟨le_rfl, calculateWorkingDays_of_lt m (by omega), fun _ => rfl, by omega⟩
  | succ r ih =>
    intro d f hf
    have hex : ∃ j : Nat, m (weekday (d - 1 - j)) = false := by
      obtain ⟨j, _, hj⟩ := exists_working_bwd hm (d - 1)
      exact ⟨j, hj⟩
    classical
    have hj0w : m (weekday (d - 1 - (Nat.find hex : Nat))) = false := Nat.find_spec hex
    have hj0min : ∀ j : Nat, j < Nat.find hex → m (weekday (d - 1 - j)) = true := by
      intro j hj
      have := Nat.find_min hex hj
      simpa using this
    have hj06 : Nat.find hex ≤ 6 := by
      obtain ⟨j, hj6, hj⟩ := exists_working_bwd hm (d - 1)
      exact le_trans (Nat.find_min' hex hj) hj6
    set k : Nat := Nat.find hex + 1 with hkdef
    have hkw : m (weekday (d - k)) = false := by
      push_cast
      push_cast at hj0w
      convert hj0w using 3
      ring
    have hkmin : ∀ j : Nat, 1 ≤ j → j < k → m (weekday (d - j)) = true := by
      intro j hj1 hj2
      have := hj0min (j - 1) (by omega)
      push_cast at this ⊢
      have hcast : ((j - 1 : Nat) : Int) = (j : Int) - 1 := by omega
      rw [hcast] at this
      rw [show (d - (j : Int)) = d - 1 - ((j : Int) - 1) by ring]
      exact this
    have hjump := dirLoopAux_bwd_jump k d f r (by omega) (by omega) hkmin hkw
    obtain ⟨ih1, ih2, ih3, ih4⟩ := ih (d - k) (f - k) (by omega)
    rw [hjump]
    refine ⟨by omega, ?_, by omega, ?_⟩
    · have hsplit := calculateWorkingDays_split m
        (s := dirLoopAux m (-1) (f - k) r (d - k)) (t := d - k - 1) (e := d - 1)
        (by omega) (by omega)
      have hone : calculateWorkingDays (d - k - 1 + 1) (d - 1) m = 1 := by
        rw [show d - (k : Int) - 1 + 1 = d - k by ring]
        have hsplit2 := calculateWorkingDays_split m
          (s := d - k) (t := d - k) (e := d - 1) (by omega) (by omega)
        have hz : calculateWorkingDays (d - k + 1) (d - 1) m = 0 := by
          apply calculateWorkingDays_all_masked
          intro x hx1 hx2
          have := hkmin (d - x).toNat (by omega) (by omega)
          have hxx : x = d - ((d - x).toNat : Int) := by omega
          rw [hxx]
          exact this
        have hself : calculateWorkingDays (d - k) (d - k) m = 1 := by
          rw [calculateWorkingDays_self m, hkw]
          simp
        omega
      have hih2' : calculateWorkingDays (dirLoopAux m (-1) (f - k) r (d - k))
          (d - k - 1) m = r := ih2
      omega
    · intro _
      rcases Nat.eq_zero_or_pos r with rfl | hr
      · rw [ih3 rfl]
        exact hkw
      · exact ih4 hr

/-! ### Characterization of `addWorkingDays` and `addOrSubtractWorkingDays` -/

/-- For `days ≥ 1`, `addWorkingDays s days m` is a working day `e ≥ s` such
that `[s, e]` contains exactly `days` working days. -/
theorem addWorkingDays_charac {m : Mask} (hm : maskNotFull m) {s days : Int}
    (h : 1 ≤ days) :
    s ≤ addWorkingDays s days m ∧
      m (weekday (addWorkingDays s days m)) = false ∧
      (calculateWorkingDays s (addWorkingDays s days m) m : Int) = days := by
  have h0 : ¬ (days = 0) := by omega
  have h1 : ¬ (days < 1) := by omega
  rw [addWorkingDays, if_neg h0, if_neg h1]
  obtain ⟨hs1, hs2, hs3⟩ := snapFwd_charac hm s
  set s' := snapFwdAux m 7 s with hs'
  obtain ⟨hl1, hl2, hl3, hl4⟩ :=
    addLoopAux_charac hm ((days - 1).toNat) s' (7 * (days - 1).toNat) le_rfl
  set e := addLoopAux m (7 * (days - 1).toNat) ((days - 1).toNat) s' with he
  have hwe : m (weekday e) = false := by
    rcases eq_or_lt_of_le h with heq | hlt
    · have : (days - 1).toNat = 0 := by omega
      rw [hl3 this]
      exact hs2
    · exact hl4 (by omega)
  refine ⟨by omega, hwe, ?_⟩
  have hsplit1 : calculateWorkingDays s e m
      = calculateWorkingDays s (s' - 1) m + calculateWorkingDays s' e m := by
    have := calculateWorkingDays_split m (s := s) (t := s' - 1) (e := e)
      (by omega) (by omega)
    rw [show s' - 1 + 1 = s' by ring] at this
    exact this
  have hz : calculateWorkingDays s (s' - 1) m = 0 :=
    calculateWorkingDays_all_masked m (fun x hx1 hx2 => hs3 x hx1 (by omega))
  have hsplit2 : calculateWorkingDays s' e m
      = calculateWorkingDays s' s' m + calculateWorkingDays (s' + 1) e m :=
    calculateWorkingDays_split m (by omega) (by omega)
  have hself : calculateWorkingDays s' s' m = 1 := by
    rw [calculateWorkingDays_self m, hs2]
    simp
  omega

/-- Uniqueness: a working day `e ≥ s` with `calculateWorkingDays s e m = n`
is exactly `addWorkingDays s n m`. -/
theorem addWorkingDays_eq_of {m : Mask} (hm : maskNotFull m) {s e n : Int}
    (h1 : 1 ≤ n) (h2 : s ≤ e) (h3 : m (weekday e) = false)
    (h4 : (calculateWorkingDays s e m : Int) = n) :
    addWorkingDays s n m = e := by
  obtain ⟨ha1, ha2, ha3⟩ := addWorkingDays_charac hm (s := s) h1
  set e' := addWorkingDays s n m with he'
  rcases lt_trichotomy e' e with hlt | heq | hgt
  · have := calculateWorkingDays_lt_of_working_right m (s := s) h2 hlt h3
    omega
  · exact heq
  · have := calculateWorkingDays_lt_of_working_right m (s := s) ha1 hgt ha2
    omega

theorem addOrSubtractWorkingDays_zero (m : Mask) (s : Int) :
    addOrSubtractWorkingDays s 0 m = s := by
  simp [addOrSubtractWorkingDays]

/-- For `k ≥ 1`, `addOrSubtractWorkingDays e (-k) m` is a working day `b < e`
such that `[b, e-1]` contains exactly `k` working days. -/
theorem addOrSubtractWorkingDays_neg_charac {m : Mask} (hm : maskNotFull m)
    {e k : Int} (h : 1 ≤ k) :
    addOrSubtractWorkingDays e (-k) m < e ∧
      m (weekday (addOrSubtractWorkingDays e (-k) m)) = false ∧
      (calculateWorkingDays (addOrSubtractWorkingDays e (-k) m) (e - 1) m : Int) = k := by
  have h0 : ¬ (-k = 0) := by omega
  have h1 : ¬ (0 < -k) := by omega
  rw [addOrSubtractWorkingDays, if_neg h0, if_neg (by omega : ¬ (0 : Int) < -k)]
  obtain ⟨hb1, hb2, hb3, hb4⟩ :=
    dirLoopAux_bwd_charac hm ((-k).natAbs) e (7 * (-k).natAbs) le_rfl
  set b := dirLoopAux m (-1) (7 * (-k).natAbs) ((-k).natAbs) e with hb
  have hk1 : 1 ≤ (-k).natAbs := by omega
  have hwb : m (weekday b) = false := hb4 hk1
  have hble : b < e := by
    rcases eq_or_lt_of_le hb1 with heq | hlt
    · exfalso
      rw [heq] at hb2
      have : calculateWorkingDays e (e - 1) m = 0 :=
        calculateWorkingDays_of_lt m (by omega)
      omega
    · exact hlt
  refine ⟨hble, hwb, ?_⟩
  have : ((-k).natAbs : Int) = k := by omega
  omega

/-- Uniqueness for the backward walk: a working day `b < e` with
`calculateWorkingDays b (e-1) m = k` is exactly
`addOrSubtractWorkingDays e (-k) m`. -/
theorem addOrSubtractWorkingDays_neg_eq_of {m : Mask} (hm : maskNotFull m)
    {e b k : Int} (h1 : 1 ≤ k) (h2 : b < e) (h3 : m (weekday b) = false)
    (h4 : (calculateWorkingDays b (e - 1) m : Int) = k) :
    addOrSubtractWorkingDays e (-k) m = b := by
  obtain ⟨ha1, ha2, ha3⟩ := addOrSubtractWorkingDays_neg_charac hm (e := e) h1
  set b' := addOrSubtractWorkingDays e (-k) m with hb'
  rcases lt_trichotomy b' b with hlt | heq | hgt
  · have := calculateWorkingDays_lt_of_working_left m (e := e - 1) hlt (by omega) ha2
    omega
  · exact heq
  · have := calculateWorkingDays_lt_of_working_left m (e := e - 1) hgt (by omega) h3
    omega

/-- The `days = 0` branch of `addWorkingDays` is the backward snap. -/
theorem addWorkingDays_zero_eq (m : Mask) (s : Int) :
    addWorkingDays s 0 m = snapBackAux m 7 s := by
  simp [addWorkingDays]

/-- The `days < 0` branch of `addWorkingDays` is the identity. -/
theorem addWorkingDays_neg_eq (m : Mask) {s days : Int} (h : days < 0) :
    addWorkingDays s days m = s := by
  rw [addWorkingDays, if_neg (by omega), if_pos (by omega)]

theorem calculateWorkingDays_self_of_working {m : Mask} {d : Int}
    (h : m (weekday d) = false) : calculateWorkingDays d d m = 1 := by
  rw [calculateWorkingDays_self m, h]
  simp

theorem calculateWorkingDays_self_of_masked {m : Mask} {d : Int}
    (h : m (weekday d) = true) : calculateWorkingDays d d m = 0 := by
  rw [calculateWorkingDays_self m, h]
  simp

/-! ### The gesture resolver (`handleTaskDragUpdate` in `App.js`) -/

/-- The three date-editing gestures of `handleTaskDragUpdate`. -/
inductive DragActionType where
  | move
  | resizeStart
  | resizeEnd
deriving DecidableEq

/-- The date computation of `handleTaskDragUpdate` for the dragged task:
given the gesture, the anchored pre-drag dates, the parsed project window and
the pointer's calendar-day offset, produce the new `(startDate, endDate)`
pair (before formatting back to strings). -/
def dragResolve (action : DragActionType) (initS initE pS pE off : Int)
    (m : Mask) : Int × Int :=
  match action with
  | .move =>
    let c : Int := (calculateWorkingDays initS initE m : Int)
    let dur : Int := if c = 0 then 1 else c
    let potS0 := addDaysUTC initS off
    let potS1 := if potS0 < pS then pS else potS0
    let potS2 :=
      if pE < addWorkingDays potS1 dur m then
        let pS' := addOrSubtractWorkingDays pE (-(dur - 1)) m
        if pS' < pS then pS else pS'
      else potS1
    let newE0 := addWorkingDays potS2 dur m
    let newE1 := if pE < newE0 then pE else newE0
    let newE2 := if newE1 < potS2 then potS2 else newE1
    (potS2, newE2)
  | .resizeStart =>
    let nS0 := addDaysUTC initS off
    let nS1 := if nS0 < pS then pS else nS0
    if initE < nS1 then (initE, nS1) else (nS1, initE)
  | .resizeEnd =>
    let nE0 := addDaysUTC initE off
    let nE1 := if pE < nE0 then pE else nE0
    if nE1 < initS then (nE1, initS) else (initS, nE1)

theorem lastClampLe (a b : Int) : a ≤ if b < a then a else b := by
  split_ifs <;> omega

theorem pairSwapLe (a b : Int) :
    (if a < b then (a, b) else (b, a)).1 ≤ (if a < b then (a, b) else (b, a)).2 := by
  split_ifs <;> simp <;> omega

/-- In every gesture the resolver commits `newStart ≤ newEnd`: the move case
forces it defensively at the end, and the resize cases swap on crossing. -/
theorem dragResolve_le (action : DragActionType) (initS initE pS pE off : Int)
    (m : Mask) :
    (dragResolve action initS initE pS pE off m).1
      ≤ (dragResolve action initS initE pS pE off m).2 := by
  cases action
  case move => exact lastClampLe _ _
  case resizeStart => exact pairSwapLe _ _
  case resizeEnd => exact pairSwapLe _ _

/-- Full case analysis of the `move` gesture: the shifted start is clamped to
the window start; if the duration-derived end stays inside the window it is
committed and the working-day duration `dur` is preserved exactly; otherwise
the task is placed against the window's trailing edge (`newEnd = pEnd`), and
the duration is preserved there exactly when the window end is itself a
working day and the window holds at least `dur` working days. -/
theorem dragResolve_move_spec {m : Mask} (hm : maskNotFull m)
    {initS initE pS pE off : Int} (hW : pS ≤ pE) {dur clampedS : Int}
    (hdur : dur = (if (calculateWorkingDays initS initE m : Int) = 0 then 1
        else (calculateWorkingDays initS initE m : Int)))
    (hcl : clampedS = if initS + off < pS then pS else initS + off) :
    ((dragResolve .move initS initE pS pE off m).1
        ≤ (dragResolve .move initS initE pS pE off m).2) ∧
    (addWorkingDays clampedS dur m ≤ pE →
      (dragResolve .move initS initE pS pE off m).1 = clampedS ∧
      (dragResolve .move initS initE pS pE off m).2 = addWorkingDays clampedS dur m ∧
      (calculateWorkingDays (dragResolve .move initS initE pS pE off m).1
          (dragResolve .move initS initE pS pE off m).2 m : Int) = dur) ∧
    (pE < addWorkingDays clampedS dur m →
      (dragResolve .move initS initE pS pE off m).2 = pE ∧
      (m (weekday pE) = false →
        dur ≤ (calculateWorkingDays pS pE m : Int) →
        (calculateWorkingDays (dragResolve .move initS initE pS pE off m).1
            (dragResolve .move initS initE pS pE off m).2 m : Int) = dur)) := by
  have hdur1 : 1 ≤ dur := by
    rw [hdur]
    split_ifs with h
    · omega
    · have : (0 : Int) ≤ (calculateWorkingDays initS initE m : Int) := by positivity
      omega
  have hmain : dragResolve .move initS initE pS pE off m
      = (let potS2 :=
          if pE < addWorkingDays clampedS dur m then
            let pS' := addOrSubtractWorkingDays pE (-(dur - 1)) m
            if pS' < pS then pS else pS'
          else clampedS
         let newE0 := addWorkingDays potS2 dur m
         let newE1 := if pE < newE0 then pE else newE0
         let newE2 := if newE1 < potS2 then potS2 else newE1
         (potS2, newE2)) := by
    simp only [dragResolve, addDaysUTC, ← hdur, ← hcl]
  rcases le_or_lt (addWorkingDays clampedS dur m) pE with hin | hout
  · -- the duration-derived end stays inside the window: no trailing clamp
    obtain ⟨ha1, ha2, ha3⟩ := addWorkingDays_charac hm (s := clampedS) hdur1
    have hres : dragResolve .move initS initE pS pE off m
        = (clampedS, addWorkingDays clampedS dur m) := by
      rw [hmain]
      simp only [if_neg (by omega : ¬ pE < addWorkingDays clampedS dur m),
        if_neg (by omega : ¬ addWorkingDays clampedS dur m < clampedS)]
    rw [hres]
    refine ⟨ha1, fun _ => ⟨rfl, rfl, ha3⟩, fun h => absurd h (by omega)⟩
  · -- trailing clamp: the end is pinned to the window end
    rcases eq_or_lt_of_le hdur1 with hdur_one | hdur2
    · -- dur = 1: the backward shift is the 0-day no-op, start becomes pEnd
      have hzero : -(dur - 1) = 0 := by omega
      have hps' : addOrSubtractWorkingDays pE (-(dur - 1)) m = pE := by
        rw [hzero, addOrSubtractWorkingDays_zero]
      obtain ⟨hb1, hb2, hb3⟩ := addWorkingDays_charac hm (s := pE) hdur1
      by_cases hwpE : m (weekday pE) = false
      · -- pEnd is a working day
        have hEpE : addWorkingDays pE dur m = pE :=
          addWorkingDays_eq_of hm hdur1 le_rfl hwpE
            (by rw [calculateWorkingDays_self_of_working hwpE]; omega)
        have hres : dragResolve .move initS initE pS pE off m = (pE, pE) := by
          rw [hmain]
          simp only [if_pos hout, hps', if_neg (by omega : ¬ pE < pS), hEpE,
            if_neg (by omega : ¬ pE < pE)]
        rw [hres]
        refine ⟨le_rfl, fun h => absurd h (by omega), fun _ => ⟨rfl, fun _ _ => ?_⟩⟩
        rw [calculateWorkingDays_self_of_working hwpE]
        omega
      · -- pEnd is masked: the re-derived end overshoots and is clamped back
        rw [Bool.not_eq_false] at hwpE
        have hgt : pE < addWorkingDays pE dur m := by
          rcases eq_or_lt_of_le hb1 with heq | hlt
          · exfalso
            rw [← heq] at hb2
            rw [hb2] at hwpE
            exact Bool.false_ne_true hwpE
          · exact hlt
        have hres : dragResolve .move initS initE pS pE off m = (pE, pE) := by
          rw [hmain]
          simp only [if_pos hout, hps', if_neg (by omega : ¬ pE < pS),
            if_pos hgt, if_neg (by omega : ¬ pE < pE)]
        rw [hres]
        refine ⟨le_rfl, fun h => absurd h (by omega), fun _ => ⟨rfl, fun hw _ => ?_⟩⟩
        rw [hw] at hwpE
        exact absurd hwpE Bool.false_ne_true
    · -- dur ≥ 2: the backward working-day shift is a genuine walk
      have hk1 : 1 ≤ dur - 1 := by omega
      obtain ⟨hb1, hb2, hb3⟩ := addOrSubtractWorkingDays_neg_charac hm (e := pE) hk1
      set pS' := addOrSubtractWorkingDays pE (-(dur - 1)) m with hpS'
      rcases lt_or_le pS' pS with hclamp | hnoclamp
      · -- window too narrow: start clamped to pStart, end to pEnd
        have hcwd_upper : (calculateWorkingDays pS pE m : Int) ≤ dur - 1 := by
          have hsplit1 : calculateWorkingDays pS' (pE - 1) m
              = calculateWorkingDays pS' (pS - 1) m
                + calculateWorkingDays (pS - 1 + 1) (pE - 1) m :=
            calculateWorkingDays_split m (by omega) (by omega)
          rw [show pS - 1 + 1 = pS by ring] at hsplit1
          have hone : 1 ≤ calculateWorkingDays pS' (pS - 1) m := by
            have := calculateWorkingDays_mono_right m (s := pS')
              (show pS' ≤ pS - 1 by omega)
            have := calculateWorkingDays_self_of_working hb2
            omega
          have hsplit2 : calculateWorkingDays pS pE m
              = calculateWorkingDays pS (pE - 1) m
                + calculateWorkingDays (pE - 1 + 1) pE m :=
            calculateWorkingDays_split m (by omega) (by omega)
          rw [show pE - 1 + 1 = pE by ring] at hsplit2
          have hlast : calculateWorkingDays pE pE m ≤ 1 := by
            rw [calculateWorkingDays_self m]
            split_ifs <;> omega
          omega
        obtain ⟨hc1, hc2, hc3⟩ := addWorkingDays_charac hm (s := pS) hdur1
        have hover : pE < addWorkingDays pS dur m := by
          by_contra hle
          push_neg at hle
          have := calculateWorkingDays_mono_right m (s := pS) hle
          omega
        have hres : dragResolve .move initS initE pS pE off m = (pS, pE) := by
          rw [hmain]
          simp only [if_pos hout, ← hpS', if_pos hclamp, if_pos hover,
            if_neg (by omega : ¬ pE < pS)]
        rw [hres]
        exact ⟨hW, fun h => absurd h (by omega),
          fun _ => ⟨rfl, fun _ hwide => by omega⟩⟩
      · -- backward shift stays inside the window
        obtain ⟨hc1, hc2, hc3⟩ := addWorkingDays_charac hm (s := pS') hdur1
        by_cases hwpE : m (weekday pE) = false
        · -- pEnd working: the re-derived end is exactly pEnd (duration kept)
          have hcwdSE : (calculateWorkingDays pS' pE m : Int) = dur := by
            have hsplit : calculateWorkingDays pS' pE m
                = calculateWorkingDays pS' (pE - 1) m
                  + calculateWorkingDays (pE - 1 + 1) pE m :=
              calculateWorkingDays_split m (by omega) (by omega)
            rw [show pE - 1 + 1 = pE by ring] at hsplit
            have := calculateWorkingDays_self_of_working hwpE
            omega
          have hEpE : addWorkingDays pS' dur m = pE :=
            addWorkingDays_eq_of hm hdur1 (by omega) hwpE hcwdSE
          have hres : dragResolve .move initS initE pS pE off m = (pS', pE) := by
            rw [hmain]
            simp only [if_pos hout, ← hpS', if_neg (by omega : ¬ pS' < pS), hEpE,
              if_neg (by omega : ¬ pE < pE), if_neg (by omega : ¬ pE < pS')]
          rw [hres]
          exact ⟨by omega, fun h => absurd h (by omega),
            fun _ => ⟨rfl, fun _ _ => hcwdSE⟩⟩
        · -- pEnd masked: re-derived end overshoots, clamped back to pEnd
          rw [Bool.not_eq_false] at hwpE
          have hcwdSE : (calculateWorkingDays pS' pE m : Int) = dur - 1 := by
            have hsplit : calculateWorkingDays pS' pE m
                = calculateWorkingDays pS' (pE - 1) m
                  + calculateWorkingDays (pE - 1 + 1) pE m :=
              calculateWorkingDays_split m (by omega) (by omega)
            rw [show pE - 1 + 1 = pE by ring] at hsplit
            have := calculateWorkingDays_self_of_masked hwpE
            omega
          have hover : pE < addWorkingDays pS' dur m := by
            by_contra hle
            push_neg at hle
            have := calculateWorkingDays_mono_right m (s := pS') hle
            omega
          have hres : dragResolve .move initS initE pS pE off m = (pS', pE) := by
            rw [hmain]
            simp only [if_pos hout, ← hpS', if_neg (by omega : ¬ pS' < pS),
              if_pos hover, if_neg (by omega : ¬ pE < pS')]
          rw [hres]
          refine ⟨by omega, fun h => absurd h (by omega),
            fun _ => ⟨rfl, fun hw _ => ?_⟩⟩
          rw [hw] at hwpE
          exact absurd hwpE Bool.false_ne_true

/-! ### The segment decomposer (`getTaskSegments` in `GanttChart.tsx`) -/

/-- Loop body of `getTaskSegments`: walk `n` days starting at `d` (so that
`d + n = e + 1`), carrying the currently open segment start; a maximal run of
working days becomes one closed `(segStart, segEnd)` pair, and a segment
still open when the walk passes `e` is closed at `e`. -/
def segAux (m : Mask) (e : Int) : Nat → Int → Option Int → List (Int × Int)
  | 0, _, os =>
    (match os with
     | some st => [(st, e)]
     | none => [])
  | n + 1, d, os =>
    if m (weekday d) then
      match os with
      | some st => (st, d - 1) :: segAux m e n (d + 1) none
      | none => segAux m e n (d + 1) none
    else
      match os with
      | some st => segAux m e n (d + 1) (some st)
      | none => segAux m e n (d + 1) (some d)

/-- The date-range core of `getTaskSegments(task)`: maximal runs of
consecutive working days inside `[s, e]`; empty for an inverted range. -/
def getTaskSegmentsCore (s e : Int) (m : Mask) : List (Int × Int) :=
  if e < s then [] else segAux m e ((e - s).toNat + 1) s none

theorem segAux_spec (m : Mask) (e : Int) : ∀ (n : Nat) (d : Int) (os : Option Int),
    d + n = e + 1 →
    (∀ st, os = some st → st ≤ d - 1 ∧
      ∀ x, st ≤ x → x ≤ d - 1 → m (weekday x) = false) →
    (∀ p ∈ segAux m e n d os, p.1 ≤ p.2 ∧
        ∀ x, p.1 ≤ x → x ≤ p.2 → m (weekday x) = false) ∧
    ((segAux m e n d os).map (fun p => calculateWorkingDays p.1 p.2 m)).sum
      = (match os with
         | some st => calculateWorkingDays st e m
         | none => calculateWorkingDays d e m) := by
  intro n
  induction n with
  | zero =>
    intro d os hd hinv
    match os with
    | none =>
      refine ⟨by simp [segAux], ?_⟩
      simp [segAux]
      rw [calculateWorkingDays_of_lt m (by omega)]
    | some st =>
      obtain ⟨hst1, hst2⟩ := hinv st rfl
      refine ⟨?_, by simp [segAux]⟩
      intro p hp
      simp [segAux] at hp
      subst hp
      exact ⟨by omega, fun x hx1 hx2 => hst2 x hx1 (by omega)⟩
  | succ n ih =>
    intro d os hd hinv
    have hde : d ≤ e := by omega
    by_cases hw : m (weekday d) = false
    · -- `d` is a working day: the segment is open (or opens here)
      match os with
      | none =>
        have hstep : segAux m e (n + 1) d none = segAux m e n (d + 1) (some d) := by
          simp [segAux, hw]
        obtain ⟨ihA, ihB⟩ := ih (d + 1) (some d) (by omega)
          (by
            intro st hst
            cases hst
            exact ⟨by omega, fun x hx1 hx2 => by
              have hxd : x = d := by omega
              rw [hxd]
              exact hw⟩)
        rw [hstep]
        exact ⟨ihA, ihB⟩
      | some st =>
        obtain ⟨hst1, hst2⟩ := hinv st rfl
        have hstep : segAux m e (n + 1) d (some st) = segAux m e n (d + 1) (some st) := by
          simp [segAux, hw]
        obtain ⟨ihA, ihB⟩ := ih (d + 1) (some st) (by omega)
          (by
            intro st' hst'
            cases hst'
            refine ⟨by omega, fun x hx1 hx2 => ?_⟩
            rcases lt_or_le x d with hx | hx
            · exact hst2 x hx1 (by omega)
            · have hxd : x = d := by omega
              rw [hxd]
              exact hw)
        rw [hstep]
        exact ⟨ihA, ihB⟩
    · -- `d` is masked: an open segment closes at `d - 1`
      rw [Bool.not_eq_false] at hw
      match os with
      | none =>
        have hstep : segAux m e (n + 1) d none = segAux m e n (d + 1) none := by
          simp [segAux, hw]
        obtain ⟨ihA, ihB⟩ := ih (d + 1) none (by omega) (by simp)
        rw [hstep]
        refine ⟨ihA, ?_⟩
        rw [ihB]
        have := calculateWorkingDays_succ_left m hde
        rw [this, hw]
        simp
      | some st =>
        obtain ⟨hst1, hst2⟩ := hinv st rfl
        have hstep : segAux m e (n + 1) d (some st)
            = (st, d - 1) :: segAux m e n (d + 1) none := by
          simp [segAux, hw]
        obtain ⟨ihA, ihB⟩ := ih (d + 1) none (by omega) (by simp)
        rw [hstep]
        constructor
        · intro p hp
          rcases List.mem_cons.mp hp with hp | hp
          · subst hp
            exact ⟨by omega, hst2⟩
          · exact ihA p hp
        · simp only [List.map_cons, List.sum_cons, ihB]
          have hsplit : calculateWorkingDays st e m
              = calculateWorkingDays st (d - 1) m
                + calculateWorkingDays (d - 1 + 1) e m :=
            calculateWorkingDays_split m (by omega) (by omega)
          rw [show d - 1 + 1 = d by ring] at hsplit
          have hstep2 := calculateWorkingDays_succ_left m hde
          rw [hstep2, hw] at hsplit
          simp at hsplit
          omega

/-- Working-day counts of the segments sum to the range's working-day count,
and no masked day belongs to any segment. -/
theorem getTaskSegmentsCore_spec {s e : Int} (m : Mask) (hse : s ≤ e) :
    ((getTaskSegmentsCore s e m).map
        (fun p => calculateWorkingDays p.1 p.2 m)).sum
      = calculateWorkingDays s e m ∧
    ∀ p ∈ getTaskSegmentsCore s e m, p.1 ≤ p.2 ∧
      ∀ x, p.1 ≤ x → x ≤ p.2 → m (weekday x) = false := by
  have h1 : ¬ (e < s) := by omega
  rw [getTaskSegmentsCore, if_neg h1]
  obtain ⟨hA, hB⟩ := segAux_spec m e ((e - s).toNat + 1) s none (by omega) (by simp)
  exact ⟨hB, hA⟩

/-! ### Civil-calendar conversion (the host's `Date` builtin)

`parseUTCDateString` and `formatDateUTC` call into the ECMAScript `Date`
builtin (`Date.UTC`, `getUTCFullYear/Month/Date`); these are not repository
code but host semantics, embedded here by the standard proleptic-Gregorian
conversion between a year/month/day triple and the epoch day count
(ECMA-262 `MakeDay`/`YearFromTime` etc.), including `Date.UTC`'s mapping of
two-digit years 0–99 to 1900–1999 and its month/day overflow normalization.
For a positive divisor `Int.ediv` is floor division, which is the division
used by those specifications. -/

/-- Epoch day of the civil date `(y, m, d)` with `m ∈ [1,12]` (a `d` outside
the month simply offsets, as in `MakeDay`). -/
def daysFromCivil (y m d : Int) : Int :=
  let y' := if m ≤ 2 then y - 1 else y
  let era := Int.ediv y' 400
  let yoe := y' - era * 400
  let mp := if 2 < m then m - 3 else m + 9
  let doy := Int.ediv (153 * mp + 2) 5 + d - 1
  let doe := yoe * 365 + Int.ediv yoe 4 - Int.ediv yoe 100 + doy
  era * 146097 + doe - 719468

/-- Civil date `(year, month ∈ [1,12], day)` of an epoch day. -/
def civilFromDays (z : Int) : Int × Int × Int :=
  let z' := z + 719468
  let era := Int.ediv z' 146097
  let doe := z' - era * 146097
  let yoe := Int.ediv (doe - Int.ediv doe 1460 + Int.ediv doe 36524
    - Int.ediv doe 146096) 365
  let y := yoe + era * 400
  let doy := doe - (365 * yoe + Int.ediv yoe 4 - Int.ediv yoe 100)
  let mp := Int.ediv (5 * doy + 2) 153
  let d := doy - Int.ediv (153 * mp + 2) 5 + 1
  let mo := if mp < 10 then mp + 3 else mp - 9
  (if mo ≤ 2 then y + 1 else y, mo, d)

/-- `date.getUTCFullYear()`. -/
def getUTCFullYear (t : Int) : Int := (civilFromDays t).1

/-- `date.getUTCMonth()` (0-based). -/
def getUTCMonth (t : Int) : Int := (civilFromDays t).2.1 - 1

/-- `date.getUTCDate()` (day of month, 1-based). -/
def getUTCDate (t : Int) : Int := (civilFromDays t).2.2

/-- `Date.UTC`'s `MakeFullYear`: years 0–99 denote 1900–1999. -/
def jsMakeFullYear (y : Int) : Int := if 0 ≤ y ∧ y ≤ 99 then 1900 + y else y

/-- `Date.UTC(y, mo, d)` (with `mo` 0-based), as an epoch day: applies the
two-digit-year rule and normalizes month overflow, then offsets by `d`. -/
def jsDateUTC (y mo d : Int) : Int :=
  let yr := jsMakeFullYear y
  let ym := yr + Int.ediv mo 12
  let mn := Int.emod mo 12
  daysFromCivil ym (mn + 1) d

/-! ### Decimal rendering and the date-string functions -/

/-- Value of a decimal digit character. -/
def digitVal (c : Char) : Nat := c.toNat - 48

/-- The decimal digit character for `n < 10`. -/
def digitChar (n : Nat) : Char := Char.ofNat (48 + n)

/-- Structural recursion for the decimal digit list: the step budget bounds
the number of digits (any `fuel > n` suffices, since `n / 10 < n`). -/
def natDecDigitsAux : Nat → Nat → List Char
  | 0, _ => []
  | f + 1, n =>
    if n < 10 then [digitChar n]
    else natDecDigitsAux f (n / 10) ++ [digitChar (n % 10)]

/-- Decimal digit list of a natural number (JS `Number.prototype.toString`
for non-negative integers). -/
def natDecDigits (n : Nat) : List Char := natDecDigitsAux (n + 1) n

/-- JS template-literal rendering of an integral number. -/
def intToString (n : Int) : String :=
  if n < 0 then "-" ++ String.mk (natDecDigits (-n).toNat)
  else String.mk (natDecDigits n.toNat)

/-- `x.toString().padStart(2, '0')` for the month/day fields (both lie in
`[1, 31]` when produced by the calendar accessors). -/
def pad2 (n : Int) : String :=
  if n < 10 then "0" ++ intToString n else intToString n

/-- `formatDateUTC(date)` from `dateUtils`: zero-pads month and day but not
the year. -/
def formatDateUTC (t : Int) : String :=
  intToString (getUTCFullYear t) ++ "/" ++ pad2 (getUTCMonth t + 1) ++ "/"
    ++ pad2 (getUTCDate t)

/-- `parseUTCDateString(dateStr)` from `dateUtils`: tests the
`^\d{4}/\d{2}/\d{2}$` shape, splits into the three `parseInt` fields, builds
`Date.UTC(y, m-1, d)` and rejects the result when the UTC accessors disagree
with the parsed fields (overflow such as `2023/02/30`); returns the sentinel
`none` (`null`) otherwise, never throwing. -/
def parseUTCDateString (s : String) : Option Int :=
  match s.data with
  | [c1, c2, c3, c4, s1, c5, c6, s2, c7, c8] =>
    if c1.isDigit && c2.isDigit && c3.isDigit && c4.isDigit && s1 == '/' &&
        c5.isDigit && c6.isDigit && s2 == '/' && c7.isDigit && c8.isDigit then
      let y : Int := (1000 * digitVal c1 + 100 * digitVal c2
        + 10 * digitVal c3 + digitVal c4 : Nat)
      let mo : Int := (10 * digitVal c5 + digitVal c6 : Nat)
      let dd : Int := (10 * digitVal c7 + digitVal c8 : Nat)
      let t := jsDateUTC y (mo - 1) dd
      if getUTCFullYear t = y ∧ getUTCMonth t = mo - 1 ∧ getUTCDate t = dd then
        some t
      else none
    else none
  | _ => none

/-- Statement helper: whether a string matches `^\d{4}/\d{2}/\d{2}$`. -/
def matchesDateShape (s : String) : Bool :=
  match s.data with
  | [c1, c2, c3, c4, s1, c5, c6, s2, c7, c8] =>
      c1.isDigit && c2.isDigit && c3.isDigit && c4.isDigit && s1 == '/' &&
        c5.isDigit && c6.isDigit && s2 == '/' && c7.isDigit && c8.isDigit
  | _ => false

/-- Statement helper: the `(year, month, day)` fields denoted by a string of
the date shape. -/
def dateStringParts (s : String) : Option (Int × Int × Int) :=
  match s.data with
  | [c1, c2, c3, c4, s1, c5, c6, s2, c7, c8] =>
    if c1.isDigit && c2.isDigit && c3.isDigit && c4.isDigit && s1 == '/' &&
        c5.isDigit && c6.isDigit && s2 == '/' && c7.isDigit && c8.isDigit then
      some (((1000 * digitVal c1 + 100 * digitVal c2
          + 10 * digitVal c3 + digitVal c4 : Nat) : Int),
        ((10 * digitVal c5 + digitVal c6 : Nat) : Int),
        ((10 * digitVal c7 + digitVal c8 : Nat) : Int))
    else none
  | _ => none

/-! ### Decimal-rendering lemmas -/

theorem isDigit_toNat_bounds {c : Char} (h : c.isDigit = true) :
    48 ≤ c.toNat ∧ c.toNat ≤ 57 := by
  simp [Char.isDigit] at h
  exact h

theorem digitChar_digitVal {c : Char} (h : c.isDigit = true) :
    digitChar (digitVal c) = c := by
  obtain ⟨h1, _⟩ := isDigit_toNat_bounds h
  have hv : 48 + digitVal c = c.toNat := by
    unfold digitVal
    omega
  rw [digitChar, hv, Char.ofNat_toNat]

theorem digitVal_lt_ten {c : Char} (h : c.isDigit = true) : digitVal c < 10 := by
  obtain ⟨h1, h2⟩ := isDigit_toNat_bounds h
  unfold digitVal
  omega

theorem natDecDigitsAux_fuel : ∀ (f n : Nat), n < f →
    natDecDigitsAux f n = natDecDigitsAux (n + 1) n := by
  intro f
  induction f using Nat.strong_induction_on with
  | _ f ih =>
    intro n hn
    match f, hn with
    | f' + 1, hn =>
      by_cases h : n < 10
      · simp [natDecDigitsAux, h]
      · have hd : n / 10 < n := Nat.div_lt_self (by omega) (by omega)
        simp only [natDecDigitsAux, if_neg h]
        rw [ih f' (by omega) (n / 10) (by omega), ih n (by omega) (n / 10) hd]

theorem natDecDigits_lt10 {n : Nat} (h : n < 10) :
    natDecDigits n = [digitChar n] := by
  unfold natDecDigits natDecDigitsAux
  simp [h]

theorem natDecDigits_ge10 {n : Nat} (h : ¬ n < 10) :
    natDecDigits n = natDecDigits (n / 10) ++ [digitChar (n % 10)] := by
  unfold natDecDigits
  conv_lhs => rw [natDecDigitsAux]
  rw [if_neg h, natDecDigitsAux_fuel n (n / 10) (Nat.div_lt_self (by omega) (by omega))]

theorem natDecDigits_two {n : Nat} (h1 : 10 ≤ n) (h2 : n < 100) :
    natDecDigits n = [digitChar (n / 10), digitChar (n % 10)] := by
  rw [natDecDigits_ge10 (by omega), natDecDigits_lt10 (by omega)]
  simp

theorem natDecDigits_four {n : Nat} (h1 : 1000 ≤ n) (h2 : n < 10000) :
    natDecDigits n
      = [digitChar (n / 1000), digitChar (n / 100 % 10),
         digitChar (n / 10 % 10), digitChar (n % 10)] := by
  rw [natDecDigits_ge10 (show ¬ n < 10 by omega),
    natDecDigits_ge10 (show ¬ n / 10 < 10 by omega),
    natDecDigits_two (show 10 ≤ n / 10 / 10 by omega)
      (show n / 10 / 10 < 100 by omega)]
  have e1 : n / 10 / 10 / 10 = n / 1000 := by omega
  have e2 : n / 10 / 10 % 10 = n / 100 % 10 := by omega
  rw [e1, e2]
  simp

theorem intToString_data_of_nonneg {n : Int} (h : 0 ≤ n) :
    (intToString n).data = natDecDigits n.toNat := by
  rw [intToString, if_neg (by omega)]

theorem pad2_data {n : Int} (h0 : 0 ≤ n) (h99 : n < 100) :
    (pad2 n).data = [digitChar (n.toNat / 10), digitChar (n.toNat % 10)] := by
  by_cases h : n < 10
  · rw [pad2, if_pos h, String.data_append, intToString_data_of_nonneg h0,
      natDecDigits_lt10 (by omega)]
    have e1 : n.toNat / 10 = 0 := by omega
    have e2 : n.toNat % 10 = n.toNat := by omega
    rw [e1, e2]
    have h0c : digitChar 0 = '0' := by decide
    rw [h0c]
    rfl
  · rw [pad2, if_neg h, intToString_data_of_nonneg h0,
      natDecDigits_two (by omega) (by omega)]

theorem intToString_four_data {n : Int} (h1 : 1000 ≤ n) (h2 : n ≤ 9999) :
    (intToString n).data
      = [digitChar (n.toNat / 1000), digitChar (n.toNat / 100 % 10),
         digitChar (n.toNat / 10 % 10), digitChar (n.toNat % 10)] := by
  rw [intToString_data_of_nonneg (by omega), natDecDigits_four (by omega) (by omega)]

/-- Round trip of parse then format: when `parseUTCDateString` succeeds and
the year field has no leading zero, `formatDateUTC` reproduces the input
string exactly (month and day are re-padded to two digits; the year is
rendered without padding, which is why a leading zero cannot survive). -/
theorem parse_format_roundTrip {s : String} {t : Int}
    (h : parseUTCDateString s = some t) (hhead : s.data.head? ≠ some '0') :
    formatDateUTC t = s := by
  apply String.ext
  unfold parseUTCDateString at h
  split at h
  next c1 c2 c3 c4 s1 c5 c6 s2 c7 c8 heq =>
    split at h
    · rename_i hshape
      simp only [] at h
      split at h
      · rename_i hchk
        injection h with ht
        subst ht
        simp only [Bool.and_eq_true, beq_iff_eq] at hshape
        obtain ⟨⟨⟨⟨⟨⟨⟨⟨⟨hd1, hd2⟩, hd3⟩, hd4⟩, hs1⟩, hd5⟩, hd6⟩, hs2⟩, hd7⟩, hd8⟩ := hshape
        obtain ⟨hcy, hcm, hcd⟩ := hchk
        have hb1 := digitVal_lt_ten hd1
        have hb2 := digitVal_lt_ten hd2
        have hb3 := digitVal_lt_ten hd3
        have hb4 := digitVal_lt_ten hd4
        have hb5 := digitVal_lt_ten hd5
        have hb6 := digitVal_lt_ten hd6
        have hb7 := digitVal_lt_ten hd7
        have hb8 := digitVal_lt_ten hd8
        have hc1ne : c1 ≠ '0' := by
          intro hc
          apply hhead
          rw [heq, hc]
          rfl
        have hv1 : 1 ≤ digitVal c1 := by
          obtain ⟨hlo, hhi⟩ := isDigit_toNat_bounds hd1
          have h48 : c1.toNat ≠ 48 := by
            intro hc
            apply hc1ne
            have hofn := Char.ofNat_toNat c1
            rw [hc] at hofn
            have h0 : ('0' : Char) = Char.ofNat 48 := by decide
            rw [h0]
            exact hofn.symm
          unfold digitVal
          omega
        rw [formatDateUTC, hcy]
        have hcm' : getUTCMonth (jsDateUTC
            ((1000 * digitVal c1 + 100 * digitVal c2 + 10 * digitVal c3 + digitVal c4 : Nat) : Int)
            (((10 * digitVal c5 + digitVal c6 : Nat) : Int) - 1)
            ((10 * digitVal c7 + digitVal c8 : Nat) : Int)) + 1
            = ((10 * digitVal c5 + digitVal c6 : Nat) : Int) := by
          rw [hcm]
          ring
        rw [hcm', hcd]
        simp only [String.data_append]
        rw [intToString_four_data (by push_cast; omega) (by push_cast; omega),
          pad2_data (by positivity) (by push_cast; omega),
          pad2_data (by positivity) (by push_cast; omega)]
        rw [heq]
        have ty : ((1000 * digitVal c1 + 100 * digitVal c2 + 10 * digitVal c3 + digitVal c4 : Nat) : Int).toNat
            = 1000 * digitVal c1 + 100 * digitVal c2 + 10 * digitVal c3 + digitVal c4 := by omega
        have tm : ((10 * digitVal c5 + digitVal c6 : Nat) : Int).toNat
            = 10 * digitVal c5 + digitVal c6 := by omega
        have td : ((10 * digitVal c7 + digitVal c8 : Nat) : Int).toNat
            = 10 * digitVal c7 + digitVal c8 := by omega
        rw [ty, tm, td]
        have e1 : (1000 * digitVal c1 + 100 * digitVal c2 + 10 * digitVal c3 + digitVal c4) / 1000 = digitVal c1 := by omega
        have e2 : (1000 * digitVal c1 + 100 * digitVal c2 + 10 * digitVal c3 + digitVal c4) / 100 % 10 = digitVal c2 := by omega
        have e3 : (1000 * digitVal c1 + 100 * digitVal c2 + 10 * digitVal c3 + digitVal c4) / 10 % 10 = digitVal c3 := by omega
        have e4 : (1000 * digitVal c1 + 100 * digitVal c2 + 10 * digitVal c3 + digitVal c4) % 10 = digitVal c4 := by omega
        have e5 : (10 * digitVal c5 + digitVal c6) / 10 = digitVal c5 := by omega
        have e6 : (10 * digitVal c5 + digitVal c6) % 10 = digitVal c6 := by omega
        have e7 : (10 * digitVal c7 + digitVal c8) / 10 = digitVal c7 := by omega
        have e8 : (10 * digitVal c7 + digitVal c8) % 10 = digitVal c8 := by omega
        rw [e1, e2, e3, e4, e5, e6, e7, e8,
          digitChar_digitVal hd1, digitChar_digitVal hd2, digitChar_digitVal hd3,
          digitChar_digitVal hd4, digitChar_digitVal hd5, digitChar_digitVal hd6,
          digitChar_digitVal hd7, digitChar_digitVal hd8, hs1, hs2]
        rfl
      · simp at h
    · simp at h
  next => simp at h

/-- Characterization of `parseUTCDateString`: it returns the `none` sentinel
exactly when the string fails the shape test or when the decoded fields
normalize (through `Date.UTC` and the UTC accessors) to a different
year/month/day; on success the returned day denotes the parsed fields. -/
theorem parse_none_iff (s : String) :
    (parseUTCDateString s = none ↔
      matchesDateShape s = false ∨
        (∃ y mo dd : Int, dateStringParts s = some (y, mo, dd) ∧
          ¬ (getUTCFullYear (jsDateUTC y (mo - 1) dd) = y ∧
             getUTCMonth (jsDateUTC y (mo - 1) dd) = mo - 1 ∧
             getUTCDate (jsDateUTC y (mo - 1) dd) = dd))) ∧
    (∀ t, parseUTCDateString s = some t →
      ∃ y mo dd : Int, dateStringParts s = some (y, mo, dd) ∧
        getUTCFullYear t = y ∧ getUTCMonth t = mo - 1 ∧ getUTCDate t = dd) := by
  unfold parseUTCDateString matchesDateShape dateStringParts
  split
  next c1 c2 c3 c4 s1 c5 c6 s2 c7 c8 heq =>
    by_cases hshape : (c1.isDigit && c2.isDigit && c3.isDigit && c4.isDigit && s1 == '/' &&
        c5.isDigit && c6.isDigit && s2 == '/' && c7.isDigit && c8.isDigit) = true
    · rw [if_pos hshape, if_pos hshape]
      simp only []
      by_cases hchk :
          getUTCFullYear (jsDateUTC
              ((1000 * digitVal c1 + 100 * digitVal c2 + 10 * digitVal c3 + digitVal c4 : Nat) : Int)
              (((10 * digitVal c5 + digitVal c6 : Nat) : Int) - 1)
              ((10 * digitVal c7 + digitVal c8 : Nat) : Int))
            = ((1000 * digitVal c1 + 100 * digitVal c2 + 10 * digitVal c3 + digitVal c4 : Nat) : Int) ∧
          getUTCMonth (jsDateUTC
              ((1000 * digitVal c1 + 100 * digitVal c2 + 10 * digitVal c3 + digitVal c4 : Nat) : Int)
              (((10 * digitVal c5 + digitVal c6 : Nat) : Int) - 1)
              ((10 * digitVal c7 + digitVal c8 : Nat) : Int))
            = ((10 * digitVal c5 + digitVal c6 : Nat) : Int) - 1 ∧
          getUTCDate (jsDateUTC
              ((1000 * digitVal c1 + 100 * digitVal c2 + 10 * digitVal c3 + digitVal c4 : Nat) : Int)
              (((10 * digitVal c5 + digitVal c6 : Nat) : Int) - 1)
              ((10 * digitVal c7 + digitVal c8 : Nat) : Int))
            = ((10 * digitVal c7 + digitVal c8 : Nat) : Int)
      · constructor
        · rw [if_pos hchk]
          constructor
          · intro hnone
            simp at hnone
          · intro hcases
            rcases hcases with hbad | ⟨y, mo, dd, hparts, hbad⟩
            · rw [hshape] at hbad
              simp at hbad
            · injection hparts with hparts
              injection hparts with hy hrest
              injection hrest with hmo hdd
              subst hy
              subst hmo
              subst hdd
              exact absurd hchk hbad
        · intro t ht
          rw [if_pos hchk] at ht
          injection ht with ht
          subst ht
          exact ⟨_, _, _, rfl, hchk.1, hchk.2.1, hchk.2.2⟩
      · rw [if_neg hchk]
        constructor
        · constructor
          · intro _
            right
            exact ⟨_, _, _, rfl, hchk⟩
          · intro _
            rfl
        · intro t ht
          simp at ht
    · rw [if_neg hshape, if_neg hshape]
      constructor
      · constructor
        · intro _
          left
          simp [hshape]
        · intro _
          rfl
      · intro t ht
        simp at ht
  next =>
    constructor
    · constructor
      · intro _
        left
        rfl
      · intro _
        rfl
    · intro t ht
      simp at ht

/-! ### The task model and the task-mutation handlers (`App.js`) -/

/-- A task row (`types.ts`): dates are kept as strings (possibly empty or
malformed); `manHours` may be absent (`undefined`). -/
structure Task where
  id : String
  name : String
  assignee : Option String
  startDate : String
  endDate : String
  progress : Int
  manHours : Option ℚ
deriving DecidableEq

/-- A single `{ ...task, [field]: value }` write, as `handleTaskChange`
performs it for each writable field. -/
inductive TaskFieldValue where
  | name (v : String)
  | assignee (v : Option String)
  | startDate (v : String)
  | endDate (v : String)
  | progress (v : Int)
  | manHours (v : Option ℚ)

def setTaskField (t : Task) : TaskFieldValue → Task
  | .name v => { t with name := v }
  | .assignee v => { t with assignee := v }
  | .startDate v => { t with startDate := v }
  | .endDate v => { t with endDate := v }
  | .progress v => { t with progress := v }
  | .manHours v => { t with manHours := v }

/-- `handleTaskChange(id, field, value)`: maps over the list, replacing the
named field on every task whose id matches, with no validation or swap. -/
def handleTaskChange (ts : List Task) (id : String) (fv : TaskFieldValue) :
    List Task :=
  ts.map (fun t => if t.id = id then setTaskField t fv else t)

/-- `handleTaskDateSet(taskId, startDateStr, endDateStr)`: when both strings
parse, writes them to the matching task ordered by their parsed values
(swapping, never rejecting); otherwise the list is unchanged. -/
def handleTaskDateSet (ts : List Task) (taskId startDateStr endDateStr : String) :
    List Task :=
  match parseUTCDateString startDateStr, parseUTCDateString endDateStr with
  | some d1, some d2 =>
    let finalStartDate := if d1 < d2 then startDateStr else endDateStr
    let finalEndDate := if d1 < d2 then endDateStr else startDateStr
    ts.map (fun task => if task.id = taskId then
      { task with startDate := finalStartDate, endDate := finalEndDate } else task)
  | _, _ => ts

/-- `handleTaskDragUpdate`: parses the project window (no update when either
bound fails to parse), then rewrites only the dragged task's dates from
`dragResolve`'s output, formatted back to strings. -/
def handleTaskDragUpdate (projectStart projectEnd : String) (taskId : String)
    (actionType : DragActionType) (initialStartDate initialEndDate : Int)
    (dayOffset : Int) (m : Mask) (ts : List Task) : List Task :=
  match parseUTCDateString projectStart, parseUTCDateString projectEnd with
  | some pS, some pE =>
    ts.map (fun task =>
      if task.id = taskId then
        let r := dragResolve actionType initialStartDate initialEndDate pS pE
          dayOffset m
        { task with startDate := formatDateUTC r.1, endDate := formatDateUTC r.2 }
      else task)
  | _, _ => ts

/-- `handleTaskReorder(draggedTaskId, dropIndex)`: find the dragged task,
remove it at its first index, adjust the drop index down by one when it lies
strictly beyond that index, and re-insert (JS `splice` clamps the insertion
index to the list length). -/
def handleTaskReorder (ts : List Task) (draggedTaskId : String)
    (dropIndex : Nat) : List Task :=
  match ts.find? (fun t => t.id == draggedTaskId) with
  | none => ts
  | some draggedTask =>
    let draggedIndex := ts.indexOf draggedTask
    let removed := ts.eraseIdx draggedIndex
    let adjustedDropIndex := if draggedIndex < dropIndex then dropIndex - 1
      else dropIndex
    removed.insertIdx (min adjustedDropIndex removed.length) draggedTask

/-- `getTaskSegments(task)` proper: parse the task's dates, then decompose. -/
def getTaskSegments (task : Task) (m : Mask) : List (Int × Int) :=
  match parseUTCDateString task.startDate, parseUTCDateString task.endDate with
  | some s, some e => getTaskSegmentsCore s e m
  | _, _ => []

/-! ### The progress-marker locator (`progressLinePath` in `GanttChart.tsx`) -/

/-- The budget-consuming walk of the progress line: day-by-day from the task
start, a working day consumes up to one unit of budget contributing a
proportional width, a masked day contributes a full day width without
consuming budget; the walk stops when the budget is exhausted or the task
end is passed.  The step budget `(e - d).toNat + 1` is the exact number of
iterations the source's `while` makes (the cursor advances on every
continuing iteration).  The source computes the budget in JS floating point;
exact rationals stand in for those numbers. -/
def progressWalkAux (m : Mask) (dayWidth : ℚ) (e : Int) : Nat → ℚ → Int → ℚ
  | 0, _, _ => 0
  | f + 1, budget, d =>
    if 0 < budget ∧ d ≤ e then
      if m (weekday d) then dayWidth + progressWalkAux m dayWidth e f budget (d + 1)
      else (min 1 budget) * dayWidth
        + progressWalkAux m dayWidth e f (budget - min 1 budget) (d + 1)
    else 0

/-- Per-task X coordinate of the progress marker (the body of
`tasks.map(...)` in `progressLinePath`): a task that is fully complete with
its end before the baseline, or fully incomplete with its start after the
baseline, stays at the baseline X; otherwise the budget walk from the
task's start position determines the X. -/
def taskProgressX (m : Mask) (dateArray : List Int)
    (dayWidth taskDetailsWidth : ℚ) (baselineDate : Int) (baselineX : ℚ)
    (startStr endStr : String) (progress : Int) : ℚ :=
  let currentTaskX :=
    match parseUTCDateString startStr, parseUTCDateString endStr with
    | some startDate, some endDate =>
      let isCompletedEarly := endDate < baselineDate ∧ progress = 100
      let isNotYetStarted := baselineDate < startDate ∧ progress = 0
      if ¬ isCompletedEarly ∧ ¬ isNotYetStarted then
        let totalWorkDays := calculateWorkingDays startDate endDate m
        if 0 < totalWorkDays then
          let completedWorkDays : ℚ := (totalWorkDays : ℚ) * ((progress : ℚ) / 100)
          let pixelOffset := progressWalkAux m dayWidth endDate
            ((endDate - startDate).toNat + 1) completedWorkDays startDate
          match dateArray.indexOf? startDate with
          | some startIndex => (startIndex : ℚ) * dayWidth + pixelOffset
          | none => baselineX
        else baselineX
      else baselineX
    | _, _ => baselineX
  taskDetailsWidth + currentTaskX


theorem find?_eq_getElem?_findIdx {α : Type _} (l : List α) (p : α → Bool) :
    l.find? p = l[l.findIdx p]? := by
  induction l with
  | nil => simp
  | cons a as ih =>
    by_cases hp : p a = true
    · simp [List.find?_cons, hp, List.findIdx_cons]
    · have hp' : p a = false := by simpa using hp
      simp [List.find?_cons, hp', List.findIdx_cons, ih]

/-- C8: for every task list containing the dragged task and every drop index
in `[0, length]`, the reorder removes the dragged task from its original
(first-matching) position and reinserts it at the drop index, adjusted
downward by one exactly when the drop index is strictly greater than the
original position; the dragged task ends at that adjusted index. -/
theorem reorder_removes_and_reinserts_adjusted (ts : List Task) (draggedId : String) (dropIndex : Nat)
    (i : Nat) (hi : ts.findIdx (fun t => t.id == draggedId) = i)
    (hlen : i < ts.length) (hdrop : dropIndex ≤ ts.length) :
    handleTaskReorder ts draggedId dropIndex
      = (ts.eraseIdx i).insertIdx (if i < dropIndex then dropIndex - 1 else dropIndex)
          (ts[i]) ∧
    (handleTaskReorder ts draggedId dropIndex)[(if i < dropIndex then dropIndex - 1
        else dropIndex)]? = some (ts[i]) := by
  obtain ⟨hpi, hmin⟩ := (List.findIdx_eq hlen).mp hi
  have hfind : ts.find? (fun t => t.id == draggedId) = some (ts[i]) := by
    rw [find?_eq_getElem?_findIdx, hi, List.getElem?_eq_getElem hlen]
  have hidx : ts.indexOf (ts[i]) = i := by
    apply (List.findIdx_eq hlen).mpr
    constructor
    · simp
    · intro j hji
      have hj : j < ts.length := by omega
      by_contra hbad
      rw [Bool.not_eq_false] at hbad
      have heqt : ts[j] = ts[i] := eq_of_beq hbad
      have hjt : ((ts[j]).id == draggedId) = true := by
        rw [heqt]
        exact hpi
      rw [hmin j hji] at hjt
      exact Bool.false_ne_true hjt
  have hlenE : (ts.eraseIdx i).length = ts.length - 1 := by
    rw [List.length_eraseIdx]
    simp [hlen]
  have hadj : (if i < dropIndex then dropIndex - 1 else dropIndex)
      ≤ (ts.eraseIdx i).length := by
    rw [hlenE]
    split_ifs <;> omega
  have hres : handleTaskReorder ts draggedId dropIndex
      = (ts.eraseIdx i).insertIdx (if i < dropIndex then dropIndex - 1 else dropIndex)
          (ts[i]) := by
    rw [handleTaskReorder, hfind]
    simp only [hidx]
    rw [min_eq_left hadj]
  refine ⟨hres, ?_⟩
  rw [hres]
  have hlt : (if i < dropIndex then dropIndex - 1 else dropIndex)
      < ((ts.eraseIdx i).insertIdx (if i < dropIndex then dropIndex - 1 else dropIndex)
          (ts[i])).length := by
    rw [List.length_insertIdx _ _ hadj]
    omega
  rw [List.getElem?_eq_getElem hlt, List.getElem_insertIdx_self _ _ _ hadj]

/-! ### Concrete masks for examples -/

/-- The mask containing only Sunday. -/
def sundayMask : Mask := fun w => w == 0

/-- The mask containing Saturday and Sunday. -/
def weekendMask : Mask := fun w => w == 0 || w == 6

/-! ### Claim theorems -/

/-- C5: for every start date and every mask missing at least one weekday,
`addWorkingDays(start, 0, mask)` walks backward from `start` while the
current day is masked — landing on the prior working day, or `start` itself
when it is unmasked — and for every `n < 0` the call returns `start`
unchanged. -/
theorem addWorkingDays_zero_and_negative_floor (m : Mask) (hm : maskNotFull m)
    (s : Int) :
    (addWorkingDays s 0 m ≤ s ∧ m (weekday (addWorkingDays s 0 m)) = false ∧
      ∀ x : Int, addWorkingDays s 0 m < x → x ≤ s → m (weekday x) = true) ∧
    (∀ n : Int, n < 0 → addWorkingDays s n m = s) := by
  constructor
  · rw [addWorkingDays_zero_eq]
    exact snapBack_charac hm s
  · intro n hn
    exact addWorkingDays_neg_eq m hn

/-- Witness for C5 at `s = 3` (epoch day 3 = 1970-01-04, a Sunday) with the
Sunday-only mask. -/
theorem addWorkingDays_zero_and_negative_floor_witness :
    maskNotFull sundayMask ∧
    ((addWorkingDays 3 0 sundayMask ≤ 3 ∧
        sundayMask (weekday (addWorkingDays 3 0 sundayMask)) = false ∧
        ∀ x : Int, addWorkingDays 3 0 sundayMask < x → x ≤ 3 →
          sundayMask (weekday x) = true) ∧
      (∀ n : Int, n < 0 → addWorkingDays 3 n sundayMask = 3)) :=
  ⟨⟨1, by decide, by decide, by decide⟩,
    addWorkingDays_zero_and_negative_floor sundayMask
      ⟨1, by decide, by decide, by decide⟩ 3⟩

/-- C6: for every task with valid dates `start ≤ end` and every mask, the
working-day counts of the segments returned by the segment decomposer sum to
`calculateWorkingDays(start, end, mask)`, and every day inside any returned
segment is a working day. -/
theorem segments_partition_working_days (task : Task) (m : Mask) (s e : Int)
    (hs : parseUTCDateString task.startDate = some s)
    (he : parseUTCDateString task.endDate = some e) (hse : s ≤ e) :
    ((getTaskSegments task m).map (fun p => calculateWorkingDays p.1 p.2 m)).sum
      = calculateWorkingDays s e m ∧
    ∀ p ∈ getTaskSegments task m, ∀ x : Int, p.1 ≤ x → x ≤ p.2 →
      m (weekday x) = false := by
  have hseg : getTaskSegments task m = getTaskSegmentsCore s e m := by
    rw [getTaskSegments, hs, he]
  obtain ⟨h1, h2⟩ := getTaskSegmentsCore_spec m hse
  rw [hseg]
  exact ⟨h1, fun p hp x hx1 hx2 => (h2 p hp).2 x hx1 hx2⟩

/-- Witness for C6: the spec's own Fri→Mon scenario (`2024/01/05` to
`2024/01/08`, weekend mask). -/
theorem segments_partition_working_days_witness :
    parseUTCDateString "2024/01/05" = some 19727 ∧
    parseUTCDateString "2024/01/08" = some 19730 ∧
    (19727 : Int) ≤ 19730 ∧
    (((getTaskSegments ⟨"1", "Task 1", none, "2024/01/05", "2024/01/08", 0, none⟩
          weekendMask).map
        (fun p => calculateWorkingDays p.1 p.2 weekendMask)).sum
      = calculateWorkingDays 19727 19730 weekendMask ∧
      ∀ p ∈ getTaskSegments ⟨"1", "Task 1", none, "2024/01/05", "2024/01/08", 0, none⟩
          weekendMask,
        ∀ x : Int, p.1 ≤ x → x ≤ p.2 → weekendMask (weekday x) = false) :=
  ⟨rfl, rfl, by decide,
    segments_partition_working_days
      ⟨"1", "Task 1", none, "2024/01/05", "2024/01/08", 0, none⟩
      weekendMask 19727 19730 rfl rfl (by decide)⟩

/-- C7: `parseUTCDateString` returns the `none` sentinel — and, being a total
function, never throws — exactly when the string fails the
`\d{4}/\d{2}/\d{2}` shape or decodes to a day that normalizes to a different
year/month/day under the `Date.UTC` semantics; on all other inputs it
returns a day denoting that year/month/day. -/
theorem parse_rejects_malformed_and_overflow (s : String) :
    (parseUTCDateString s = none ↔
      matchesDateShape s = false ∨
        (∃ y mo dd : Int, dateStringParts s = some (y, mo, dd) ∧
          ¬ (getUTCFullYear (jsDateUTC y (mo - 1) dd) = y ∧
             getUTCMonth (jsDateUTC y (mo - 1) dd) = mo - 1 ∧
             getUTCDate (jsDateUTC y (mo - 1) dd) = dd))) ∧
    (∀ t, parseUTCDateString s = some t →
      ∃ y mo dd : Int, dateStringParts s = some (y, mo, dd) ∧
        getUTCFullYear t = y ∧ getUTCMonth t = mo - 1 ∧ getUTCDate t = dd) :=
  parse_none_iff s

/-- Witness for C7: `2023/02/30` is rejected via the overflow branch, and
`2024/01/01` parses to the day denoting those fields. -/
theorem parse_rejects_malformed_and_overflow_witness :
    parseUTCDateString "2023/02/30" = none ∧
    (∃ y mo dd : Int, dateStringParts "2024/01/01" = some (y, mo, dd) ∧
      getUTCFullYear 19723 = y ∧ getUTCMonth 19723 = mo - 1 ∧
      getUTCDate 19723 = dd) :=
  ⟨(parse_rejects_malformed_and_overflow "2023/02/30").1.mpr
      (Or.inr ⟨2023, 2, 30, rfl, by decide⟩),
    (parse_rejects_malformed_and_overflow "2024/01/01").2 19723 rfl⟩

/-- C9: for every task with valid parsed dates and every cutoff date found
in the day index, the progress-marker locator returns the cutoff's own
baseline X when the task ended before the cutoff at progress 100, and when
the task starts after the cutoff at progress 0. -/
theorem progress_marker_sits_on_baseline (m : Mask) (dateArray : List Int)
    (dayWidth tdw : ℚ) (b : Int) (i : Nat) (_hi : dateArray.indexOf? b = some i)
    (startStr endStr : String) (progress : Int) (s e : Int)
    (hs : parseUTCDateString startStr = some s)
    (he : parseUTCDateString endStr = some e)
    (hcase : (e < b ∧ progress = 100) ∨ (b < s ∧ progress = 0)) :
    taskProgressX m dateArray dayWidth tdw b (((i : ℚ) + 1) * dayWidth)
        startStr endStr progress
      = tdw + ((i : ℚ) + 1) * dayWidth := by
  have hcond : ¬ (¬ (e < b ∧ progress = 100) ∧ ¬ (b < s ∧ progress = 0)) := by
    rcases hcase with h | h
    · intro hc
      exact hc.1 h
    · intro hc
      exact hc.2 h
  simp only [taskProgressX, hs, he]
  rw [if_neg hcond]

/-- Witness for C9: a finished task (`progress = 100`) ending before the
cutoff `1970-01-05` (index 3 of the day index) sits on the baseline. -/
theorem progress_marker_sits_on_baseline_witness :
    [(1 : Int), 2, 3, 4].indexOf? (4 : Int) = some 3 ∧
    parseUTCDateString "1970/01/02" = some 1 ∧
    parseUTCDateString "1970/01/03" = some 2 ∧
    (((2 : Int) < 4 ∧ (100 : Int) = 100) ∨ ((4 : Int) < 1 ∧ (100 : Int) = 0)) ∧
    taskProgressX weekendMask [(1 : Int), 2, 3, 4] 24 150 4 (((3 : ℚ) + 1) * 24)
        "1970/01/02" "1970/01/03" 100
      = 150 + ((3 : ℚ) + 1) * 24 :=
  ⟨rfl, rfl, rfl, Or.inl ⟨by decide, rfl⟩,
    progress_marker_sits_on_baseline weekendMask [1, 2, 3, 4] 24 150 4 3 rfl
      "1970/01/02" "1970/01/03" 100 1 2 rfl rfl (Or.inl ⟨by decide, rfl⟩)⟩

/-- C10: a drag update leaves every task whose id differs from the dragged
id untouched, and changes nothing but the two date fields on the others:
the update is a positional map by a function that preserves id, name,
assignee, progress and manHours, and is the identity off the dragged id. -/
theorem drag_update_frame (projectStart projectEnd taskId : String)
    (action : DragActionType) (initS initE off : Int) (m : Mask)
    (ts : List Task) :
    ∃ f : Task → Task,
      handleTaskDragUpdate projectStart projectEnd taskId action initS initE
          off m ts = ts.map f ∧
      (∀ t : Task, (f t).id = t.id ∧ (f t).name = t.name ∧
        (f t).assignee = t.assignee ∧ (f t).progress = t.progress ∧
        (f t).manHours = t.manHours) ∧
      (∀ t : Task, t.id ≠ taskId → f t = t) := by
  cases hps : parseUTCDateString projectStart with
  | none =>
    refine ⟨id, ?_, by simp, by simp⟩
    simp [handleTaskDragUpdate, hps]
  | some pS =>
    cases hpe : parseUTCDateString projectEnd with
    | none =>
      refine ⟨id, ?_, by simp, by simp⟩
      simp [handleTaskDragUpdate, hps, hpe]
    | some pE =>
      refine ⟨fun task => if task.id = taskId then
          { task with
            startDate := formatDateUTC
              (dragResolve action initS initE pS pE off m).1,
            endDate := formatDateUTC
              (dragResolve action initS initE pS pE off m).2 }
        else task, ?_, ?_, ?_⟩
      · simp only [handleTaskDragUpdate, hps, hpe]
      · intro t
        by_cases h : t.id = taskId <;> simp [h]
      · intro t ht
        simp [ht]

/-- Witness for C10: a concrete two-task move touches only the dragged row's
dates. -/
theorem drag_update_frame_witness :
    ∃ f : Task → Task,
      handleTaskDragUpdate "2024/01/01" "2024/03/01" "2" .move 19723 19727 3
          weekendMask
          [⟨"1", "A", none, "", "", 0, none⟩,
           ⟨"2", "B", none, "2024/01/01", "2024/01/05", 50, none⟩]
        = [⟨"1", "A", none, "", "", 0, none⟩,
           ⟨"2", "B", none, "2024/01/01", "2024/01/05", 50, none⟩].map f ∧
      (∀ t : Task, (f t).id = t.id ∧ (f t).name = t.name ∧
        (f t).assignee = t.assignee ∧ (f t).progress = t.progress ∧
        (f t).manHours = t.manHours) ∧
      (∀ t : Task, t.id ≠ "2" → f t = t) :=
  drag_update_frame "2024/01/01" "2024/03/01" "2" .move 19723 19727 3
    weekendMask
    [⟨"1", "A", none, "", "", 0, none⟩,
     ⟨"2", "B", none, "2024/01/01", "2024/01/05", 50, none⟩]

/-- C1 (amended): for a window with `pS ≤ pE` and a mask missing at least one
weekday, the move gesture clamps the shifted start to the window start and
yields an end not before the start; when the duration-derived end stays
inside the window, the anchored working-day duration (floored to 1) is
preserved exactly; when it passes the window end, the task is compressed
against the window's trailing edge (`newEnd = pEnd`), and the duration is
preserved there exactly when the window end is itself a working day and the
window holds at least that many working days. -/
theorem move_duration_clamp_spec (m : Mask) (hm : maskNotFull m)
    (initS initE pS pE off dur clampedS : Int) (hW : pS ≤ pE)
    (hdur : dur = (if (calculateWorkingDays initS initE m : Int) = 0 then 1
        else (calculateWorkingDays initS initE m : Int)))
    (hcl : clampedS = (if initS + off < pS then pS else initS + off)) :
    ((dragResolve .move initS initE pS pE off m).1
        ≤ (dragResolve .move initS initE pS pE off m).2) ∧
    (addWorkingDays clampedS dur m ≤ pE →
      (dragResolve .move initS initE pS pE off m).1 = clampedS ∧
      (dragResolve .move initS initE pS pE off m).2
        = addWorkingDays clampedS dur m ∧
      (calculateWorkingDays (dragResolve .move initS initE pS pE off m).1
          (dragResolve .move initS initE pS pE off m).2 m : Int) = dur) ∧
    (pE < addWorkingDays clampedS dur m →
      (dragResolve .move initS initE pS pE off m).2 = pE ∧
      (m (weekday pE) = false →
        dur ≤ (calculateWorkingDays pS pE m : Int) →
        (calculateWorkingDays (dragResolve .move initS initE pS pE off m).1
            (dragResolve .move initS initE pS pE off m).2 m : Int) = dur)) :=
  dragResolve_move_spec hm hW hdur hcl

/-- Witness for C1: a plain in-window move with the Sunday mask
(task 1969/12/22–24, duration 3, window 1969/12/22–1970/01/04, offset 5). -/
theorem move_duration_clamp_spec_witness :
    maskNotFull sundayMask ∧ (-10 : Int) ≤ 3 ∧
    ((3 : Int) = (if (calculateWorkingDays (-10) (-8) sundayMask : Int) = 0
        then 1 else (calculateWorkingDays (-10) (-8) sundayMask : Int))) ∧
    ((-5 : Int) = (if (-10 : Int) + 5 < -10 then (-10 : Int)
        else (-10 : Int) + 5)) ∧
    (((dragResolve .move (-10) (-8) (-10) 3 5 sundayMask).1
        ≤ (dragResolve .move (-10) (-8) (-10) 3 5 sundayMask).2) ∧
      (addWorkingDays (-5) 3 sundayMask ≤ 3 →
        (dragResolve .move (-10) (-8) (-10) 3 5 sundayMask).1 = -5 ∧
        (dragResolve .move (-10) (-8) (-10) 3 5 sundayMask).2
          = addWorkingDays (-5) 3 sundayMask ∧
        (calculateWorkingDays (dragResolve .move (-10) (-8) (-10) 3 5 sundayMask).1
            (dragResolve .move (-10) (-8) (-10) 3 5 sundayMask).2 sundayMask : Int)
          = 3) ∧
      ((3 : Int) < addWorkingDays (-5) 3 sundayMask →
        (dragResolve .move (-10) (-8) (-10) 3 5 sundayMask).2 = 3 ∧
        (sundayMask (weekday 3) = false →
          (3 : Int) ≤ (calculateWorkingDays (-10) 3 sundayMask : Int) →
          (calculateWorkingDays
              (dragResolve .move (-10) (-8) (-10) 3 5 sundayMask).1
              (dragResolve .move (-10) (-8) (-10) 3 5 sundayMask).2
              sundayMask : Int) = 3))) :=
  ⟨⟨1, by decide, by decide, by decide⟩, by decide, by decide, by decide,
    move_duration_clamp_spec sundayMask ⟨1, by decide, by decide, by decide⟩
      (-10) (-8) (-10) 3 5 3 (-5) (by decide) (by decide) (by decide)⟩

/-- Counterexample for C1 as frozen: with the Sunday-only mask, window
1969/12/22 – 1970/01/04 (epoch days −10 … 3; the window end is a Sunday) and
task 1969/12/22 – 1969/12/24 (working-day duration 3), a move by +30 days
triggers the trailing-edge clamp and commits the task (1, 3) =
1970/01/02 – 1970/01/04 with working-day duration 2, although the window
holds 12 ≥ 3 working days — the anchored duration is not preserved even
though the window is wide enough, refuting the claim as stated. -/
theorem move_duration_not_preserved_at_masked_window_end :
    dragResolve .move (-10) (-8) (-10) 3 30 sundayMask = (1, 3) ∧
    (if (calculateWorkingDays (-10) (-8) sundayMask : Int) = 0 then (1 : Int)
      else (calculateWorkingDays (-10) (-8) sundayMask : Int)) = 3 ∧
    calculateWorkingDays (-10) 3 sundayMask = 12 ∧
    calculateWorkingDays 1 3 sundayMask = 2 := by
  refine ⟨by decide, by decide, by decide, by decide⟩

/-- C2 (amended): the create-commit (`handleTaskDateSet`) orders the two
parsed dates by swapping — never rejecting a parseable pair — so the written
task satisfies `startDate ≤ endDate`; and every drag/resize resolution
commits `newStart ≤ newEnd`.  (A direct single-field write through
`handleTaskChange` performs no such enforcement; see the counterexample.) -/
theorem dates_ordered_on_commit_writes
    (ts : List Task) (taskId s1 s2 : String) (d1 d2 : Int)
    (h1 : parseUTCDateString s1 = some d1) (h2 : parseUTCDateString s2 = some d2)
    (action : DragActionType) (initS initE pS pE off : Int) (m : Mask) :
    (∀ task ∈ handleTaskDateSet ts taskId s1 s2, task.id = taskId →
      ∃ ds de : Int, parseUTCDateString task.startDate = some ds ∧
        parseUTCDateString task.endDate = some de ∧ ds ≤ de) ∧
    (dragResolve action initS initE pS pE off m).1
      ≤ (dragResolve action initS initE pS pE off m).2 := by
  refine ⟨?_, dragResolve_le action initS initE pS pE off m⟩
  intro task htask hid
  simp only [handleTaskDateSet, h1, h2, List.mem_map] at htask
  obtain ⟨t0, ht0, heq⟩ := htask
  by_cases hc : t0.id = taskId
  · rw [if_pos hc] at heq
    by_cases hlt : d1 < d2
    · refine ⟨d1, d2, ?_, ?_, by omega⟩
      · rw [← heq]
        simp only [if_pos hlt]
        exact h1
      · rw [← heq]
        simp only [if_pos hlt]
        exact h2
    · refine ⟨d2, d1, ?_, ?_, by omega⟩
      · rw [← heq]
        simp only [if_neg hlt]
        exact h2
      · rw [← heq]
        simp only [if_neg hlt]
        exact h1
  · rw [if_neg hc] at heq
    rw [← heq] at hid
    exact absurd hid hc

/-- Witness for C2: committing a reversed pair (`2024/01/10`, `2024/01/05`)
through the create-commit write, plus a concrete resize resolution. -/
theorem dates_ordered_on_commit_writes_witness :
    parseUTCDateString "2024/01/10" = some 19732 ∧
    parseUTCDateString "2024/01/05" = some 19727 ∧
    ((∀ task ∈ handleTaskDateSet [⟨"1", "Task 1", none, "", "", 0, none⟩] "1"
        "2024/01/10" "2024/01/05", task.id = "1" →
      ∃ ds de : Int, parseUTCDateString task.startDate = some ds ∧
        parseUTCDateString task.endDate = some de ∧ ds ≤ de) ∧
    (dragResolve .resizeEnd 0 4 0 30 2 sundayMask).1
      ≤ (dragResolve .resizeEnd 0 4 0 30 2 sundayMask).2) :=
  ⟨rfl, rfl,
    dates_ordered_on_commit_writes [⟨"1", "Task 1", none, "", "", 0, none⟩] "1"
      "2024/01/10" "2024/01/05" 19732 19727 rfl rfl .resizeEnd 0 4 0 30 2
      sundayMask⟩

/-- Counterexample for C2 as frozen: a direct field change via
`handleTaskChange` writes the raw value with no swap, leaving a task whose
two dates are both present and valid with `startDate` after `endDate`. -/
theorem direct_field_change_breaks_date_order :
    (handleTaskChange [⟨"1", "Task 1", none, "", "2024/01/10", 0, none⟩] "1"
        (.startDate "2024/02/01")).map (fun t => (t.startDate, t.endDate))
      = [("2024/02/01", "2024/01/10")] ∧
    parseUTCDateString "2024/02/01" = some 19754 ∧
    parseUTCDateString "2024/01/10" = some 19732 ∧
    ¬ (19754 : Int) ≤ 19732 := by
  refine ⟨rfl, rfl, rfl, by decide⟩

/-- C3 (amended): for every string that parses successfully and whose year
field has no leading zero, formatting the parsed date reproduces the string
exactly. -/
theorem dateString_roundtrip_no_leading_zero (s : String) (t : Int)
    (h : parseUTCDateString s = some t) (hz : s.data.head? ≠ some '0') :
    formatDateUTC t = s :=
  parse_format_roundTrip h hz

/-- Witness for C3 at `2024/01/01`. -/
theorem dateString_roundtrip_no_leading_zero_witness :
    parseUTCDateString "2024/01/01" = some 19723 ∧
    ("2024/01/01" : String).data.head? ≠ some '0' ∧
    formatDateUTC 19723 = "2024/01/01" :=
  ⟨rfl, by decide,
    dateString_roundtrip_no_leading_zero "2024/01/01" 19723 rfl (by decide)⟩

/-- Counterexample for C3 as frozen: `0123/04/05` matches the
`\d{4}/\d{2}/\d{2}` shape and denotes an existing calendar day, but the
round trip yields `123/04/05` — the year is rendered without zero-padding. -/
theorem dateString_roundtrip_fails_on_leading_zero :
    matchesDateShape "0123/04/05" = true ∧
    (parseUTCDateString "0123/04/05").map formatDateUTC = some "123/04/05" ∧
    ("123/04/05" : String) ≠ "0123/04/05" := by
  refine ⟨rfl, rfl, by decide⟩

/-- C4 (amended): a resize shifts the moving endpoint by the raw
calendar-day delta and clamps it only against its own window edge (the start
against the window start, the end against the window end); when the shifted
endpoint crosses the fixed endpoint the two are swapped, and the committed
pair always satisfies `start ≤ end` — but the swapped value is not
re-clamped against the far window edge, so it can land outside the window
(see the counterexample). -/
theorem resize_shift_clamp_swap_spec (initS initE pS pE off : Int) (m : Mask) :
    dragResolve .resizeStart initS initE pS pE off m
      = (if initE < max pS (initS + off) then (initE, max pS (initS + off))
         else (max pS (initS + off), initE)) ∧
    dragResolve .resizeEnd initS initE pS pE off m
      = (if min pE (initE + off) < initS then (min pE (initE + off), initS)
         else (initS, min pE (initE + off))) ∧
    (dragResolve .resizeStart initS initE pS pE off m).1
      ≤ (dragResolve .resizeStart initS initE pS pE off m).2 ∧
    (dragResolve .resizeEnd initS initE pS pE off m).1
      ≤ (dragResolve .resizeEnd initS initE pS pE off m).2 := by
  have hmax : (if initS + off < pS then pS else initS + off)
      = max pS (initS + off) := by
    split_ifs with h <;> omega
  have hmin : (if pE < initE + off then pE else initE + off)
      = min pE (initE + off) := by
    split_ifs with h <;> omega
  refine ⟨?_, ?_, dragResolve_le _ _ _ _ _ _ _, dragResolve_le _ _ _ _ _ _ _⟩
  · simp only [dragResolve, addDaysUTC, hmax]
  · simp only [dragResolve, addDaysUTC, hmin]

/-- Counterexample for C4 as frozen: window `[0, 9]`, task `[1, 5]`,
resize-start by +20: the shifted start (21) crosses the end and the swap
commits `endDate = 21`, outside the window — the committed value of the
moving endpoint is not kept inside `[projectStart, projectEnd]`. -/
theorem resize_swap_escapes_window :
    dragResolve .resizeStart 1 5 0 9 20 (fun _ => false) = (5, 21) ∧
    9 < (dragResolve .resizeStart 1 5 0 9 20 (fun _ => false)).2 := by
  refine ⟨by decide, by decide⟩

/-- Witness for C8: the spec's scenario — dragging the task at index 0 of a
5-task list to drop index 3 places it at final index 2. -/
theorem reorder_removes_and_reinserts_adjusted_witness :
    ([⟨"1", "A", none, "", "", 0, none⟩, ⟨"2", "B", none, "", "", 0, none⟩,
      ⟨"3", "C", none, "", "", 0, none⟩, ⟨"4", "D", none, "", "", 0, none⟩,
      ⟨"5", "E", none, "", "", 0, none⟩] : List Task).findIdx
        (fun t => t.id == "1") = 0 ∧
    (handleTaskReorder
        [⟨"1", "A", none, "", "", 0, none⟩, ⟨"2", "B", none, "", "", 0, none⟩,
         ⟨"3", "C", none, "", "", 0, none⟩, ⟨"4", "D", none, "", "", 0, none⟩,
         ⟨"5", "E", none, "", "", 0, none⟩] "1" 3)[2]?
      = some ⟨"1", "A", none, "", "", 0, none⟩ ∧
    handleTaskReorder
        [⟨"1", "A", none, "", "", 0, none⟩, ⟨"2", "B", none, "", "", 0, none⟩,
         ⟨"3", "C", none, "", "", 0, none⟩, ⟨"4", "D", none, "", "", 0, none⟩,
         ⟨"5", "E", none, "", "", 0, none⟩] "1" 3
      = [⟨"2", "B", none, "", "", 0, none⟩, ⟨"3", "C", none, "", "", 0, none⟩,
         ⟨"1", "A", none, "", "", 0, none⟩, ⟨"4", "D", none, "", "", 0, none⟩,
         ⟨"5", "E", none, "", "", 0, none⟩] := by
  have h := reorder_removes_and_reinserts_adjusted
    [⟨"1", "A", none, "", "", 0, none⟩, ⟨"2", "B", none, "", "", 0, none⟩,
     ⟨"3", "C", none, "", "", 0, none⟩, ⟨"4", "D", none, "", "", 0, none⟩,
     ⟨"5", "E", none, "", "", 0, none⟩] "1" 3 0 rfl (by decide) (by decide)
  refine ⟨rfl, ?_, ?_⟩
  · exact h.2
  · rw [h.1]
    rfl

end Gantt
